import Mathlib

/-!
Verification development for the TrendPilot strategy simulation engine
(`src/services/strategyEngine.ts`, the refined second definition of
`StrategyEngine.runSimulation`, lines 270-549, together with the domain
types from `types.ts`).

Dates are modelled as epoch day numbers (`ℕ`): ISO `YYYY-MM-DD` strings
compare lexicographically exactly as their day numbers compare, and the
JavaScript `Date` accessors (`getDay`, `getMonth`, `getFullYear`,
`getTime`) are recovered from the day number through the standard civil
calendar conversion.  JavaScript numbers are modelled as exact rationals
(`ℚ`); the NaN/Infinity guard of the engine is modelled separately with an
explicit non-finite-aware number type `JsNum`.
-/

namespace TrendPilot

/-- Epoch day number standing for an ISO `YYYY-MM-DD` date string.
Lexicographic order on ISO strings coincides with `≤` on day numbers. -/
abbrev Day := Nat

/-- Civil-calendar conversion of an epoch day number to
(year, month (1-12), day-of-month); the standard algorithm behind
JavaScript `Date` field accessors for UTC dates. -/
def civilOfDay (d : Day) : ℤ × ℕ × ℕ :=
  let z : ℤ := (d : ℤ) + 719468
  let era : ℤ := z.fdiv 146097
  let doe : ℤ := z - era * 146097
  let yoe : ℤ := (doe - doe.fdiv 1460 + doe.fdiv 36524 - doe.fdiv 146096).fdiv 365
  let y : ℤ := yoe + era * 400
  let doy : ℤ := doe - (365 * yoe + yoe.fdiv 4 - yoe.fdiv 100)
  let mp : ℤ := (5 * doy + 2).fdiv 153
  let dd : ℤ := doy - (153 * mp + 2).fdiv 5 + 1
  let m : ℤ := mp + (if mp < 10 then 3 else -9)
  (y + (if m ≤ 2 then 1 else 0), m.toNat, dd.toNat)

/-- JavaScript `new Date(s).getDay()`: day of week, 0 = Sunday.
Epoch day 0 (1970-01-01) was a Thursday (4). -/
def jsGetDay (d : Day) : ℕ := (d + 4) % 7

/-- JavaScript `new Date(s).getMonth()`: 0-based month number. -/
def jsGetMonth (d : Day) : ℕ := (civilOfDay d).2.1 - 1

/-- JavaScript `new Date(s).getFullYear()`. -/
def jsGetFullYear (d : Day) : ℤ := (civilOfDay d).1

/-- JavaScript `new Date(s).getTime()` in milliseconds. -/
def jsGetTime (d : Day) : ℤ := (d : ℤ) * 86400000

/-- Domain type `MarketDataPoint` from `types.ts` (the `open` field is
renamed `open_` because `open` is a Lean keyword). -/
structure MarketDataPoint where
  open_ : ℚ
  high : ℚ
  low : ℚ
  close : ℚ
  volume : ℚ
  deriving DecidableEq, Repr

/-- Domain enum `RebalanceFrequency` from `types.ts`. -/
inductive RebalanceFrequency where
  | DAILY | WEEKLY | BIWEEKLY | MONTHLY | BIMONTHLY
  | QUARTERLY | SEMIANNUALLY | ANNUALLY
  deriving DecidableEq, Repr

/-- Domain enum `PriceType` from `types.ts`. -/
inductive PriceType where
  | OPEN | HIGH | LOW | CLOSE | AVG
  deriving DecidableEq, Repr

/-- Domain type `StrategyComponent` from `types.ts`. -/
structure StrategyComponent where
  symbolId : String
  isLong : Bool
  allocation : ℚ
  deriving DecidableEq, Repr

/-- Entry of `Strategy.rules` from `types.ts`. -/
structure RuleRef where
  ruleId : String
  weight : ℚ
  deriving DecidableEq, Repr

/-- Domain type `Strategy` from `types.ts` (the fields the engine reads). -/
structure Strategy where
  id : String
  name : String
  rebalanceFreq : RebalanceFrequency
  pricePreference : PriceType
  executionDelay : ℕ
  initialCapital : ℚ
  transactionCostPct : ℚ
  slippagePct : ℚ
  benchmarkSymbolId : String
  riskOnComponents : List StrategyComponent
  riskOffComponents : List StrategyComponent
  rules : List RuleRef
  deriving DecidableEq, Repr

/-- Domain type `SymbolData` from `types.ts` (the fields the engine reads). -/
structure SymbolData where
  id : String
  ticker : String
  name : String
  deriving DecidableEq, Repr

/-- Trade side of `SimTrade.type`. -/
inductive TradeSide where
  | BUY | SELL
  deriving DecidableEq, Repr

/-- Engine output type `SimTrade` from `strategyEngine.ts`. -/
structure SimTrade where
  date : Day
  ticker : String
  type : TradeSide
  value : ℚ
  shares : ℚ
  price : ℚ
  deriving DecidableEq, Repr

/-- Engine output type `SimResultPoint` from `strategyEngine.ts`
(the spec's `SimDayRecord`). -/
structure SimResultPoint where
  date : Day
  value : ℚ
  benchmarkValue : ℚ
  riskOn : ℚ
  riskOff : ℚ
  rebalanced : Bool
  deriving DecidableEq, Repr

/-- Regime switch event from `strategyEngine.ts`. -/
structure RegimeSwitch where
  date : Day
  fromW : ℚ
  toW : ℚ
  deriving DecidableEq, Repr

/-- Engine output type `DetailedSimResult` from `strategyEngine.ts`. -/
structure DetailedSimResult where
  series : List SimResultPoint
  trades : List SimTrade
  regimeSwitches : List RegimeSwitch
  deriving DecidableEq, Repr

/-- Fatal simulation outcomes.  The engine throws plain `Error`s with the
messages `Missing history for t` and `Simulation range is too narrow for
analysis`; `outOfFuel` models non-termination of the recursive
sub-strategy materialization (a JavaScript stack overflow).  The source
defines no other failure: in particular no `CircularDependencyError`
exists anywhere in the repository. -/
inductive SimError where
  | missingHistory (ticker : String)
  | rangeTooNarrow
  | outOfFuel
  deriving DecidableEq, Repr

/-- Per-ticker market data: the engine's
`marketDataMap : Record<string, Map<string, MarketDataPoint>>`,
as an association list keyed by ticker, each series keyed by date. -/
abbrev MD := List (String × List (Day × MarketDataPoint))

/-- Lookup of a ticker's series (`marketDataMap[t]`). -/
def mdFind (md : MD) (t : String) : Option (List (Day × MarketDataPoint)) :=
  (md.find? (fun p => p.1 = t)).map (fun p => p.2)

/-- Lookup of a ticker's point at a date (`marketDataMap[t]?.get(d)`). -/
def mdGet (md : MD) (t : String) (d : Day) : Option MarketDataPoint :=
  match mdFind md t with
  | none => none
  | some l => (l.find? (fun p => p.1 = d)).map (fun p => p.2)

/-- Membership test `marketDataMap[t].has(d)`. -/
def mdHas (md : MD) (t : String) (d : Day) : Bool :=
  (mdGet md t d).isSome

/-- String prefix test (`id.startsWith('STRAT:')`), stated on the
character data of the strings. -/
def strStartsWith (s pre : String) : Bool :=
  s.data.take pre.data.length = pre.data

/-- JavaScript `Array.from(new Set(l))`: deduplication keeping the first
occurrence of each element, in insertion order. -/
def jsDedup {α : Type} [DecidableEq α] (l : List α) : List α :=
  l.foldl (fun acc a => if a ∈ acc then acc else acc ++ [a]) []

/-- Association-list read with default 0: `m[t] || 0` on a JavaScript
object used as a number map. -/
def alGet (l : List (String × ℚ)) (k : String) : ℚ :=
  ((l.find? (fun p => p.1 = k)).map (fun p => p.2)).getD 0

/-- Association-list write: `m[t] = v` on a JavaScript object.  Updates
the first binding in place, otherwise appends, preserving the object's
insertion order of keys. -/
def alSet (l : List (String × ℚ)) (k : String) (v : ℚ) : List (String × ℚ) :=
  match l with
  | [] => [(k, v)]
  | p :: rest => if p.1 = k then (k, v) :: rest else p :: alSet rest k v

/-- Resolution of a component's `symbolId` to a ticker (`resolveTicker`
in `runSimulation`): `STRAT:`-prefixed references pass through, plain ids
are looked up in the symbol table, defaulting to the empty string. -/
def resolveTicker (symbols : List SymbolData) (id : String) : String :=
  if strStartsWith id "STRAT:" then id
  else ((symbols.find? (fun s => s.id = id)).map (fun s => s.ticker)).getD ""

/-- Benchmark ticker selection:
`symbols.find(s => s.id === strategy.benchmarkSymbolId)?.ticker || 'SPY'`. -/
def benchmarkTickerOf (symbols : List SymbolData) (strat : Strategy) : String :=
  match symbols.find? (fun s => s.id = strat.benchmarkSymbolId) with
  | some s => if s.ticker = "" then "SPY" else s.ticker
  | none => "SPY"

/-- Last-close price helper `getSafePrice` of `runSimulation`:
the close of the ticker's point at the date when it exists and is
positive, otherwise 0. -/
def getSafePrice (md : MD) (ticker : String) (d : Day) : ℚ :=
  match mdGet md ticker d with
  | some p => if 0 < p.close then p.close else 0
  | none => 0

/-- Execution price helper `getExecutionPrice` of `runSimulation`.  Note
that only the `OPEN` and `AVG` preferences select a non-close price; the
`HIGH` and `LOW` preferences fall through to the close. -/
def getExecutionPrice (pref : PriceType) (md : MD) (t : String) (d : Day) : ℚ :=
  match mdGet md t d with
  | none => getSafePrice md t d
  | some p =>
    if pref = PriceType.OPEN then (if 0 < p.open_ then p.open_ else p.close)
    else if pref = PriceType.AVG then (p.high + p.low + p.close) / 3
    else p.close

/-- The window of axis positions read by `getMA` at index `idx`:
the `period` dates immediately before `idx` on the unified date axis. -/
def maWindow (sortedDates : List Day) (idx period : ℕ) : List Day :=
  (List.range period).map (fun i => sortedDates.getD (idx - (i + 1)) 0)

/-- Moving-average helper `getMA` of `runSimulation`.  `indexOf` is the
position of the date on the unified axis `sortedDates`; the loop walks
the `period` axis dates immediately before that position, summing the
positive safe closes of the primary ticker, and yields the plain mean
only when all `period` of them were positive. -/
def getMA (md : MD) (sortedDates : List Day) (primary : String)
    (period : ℕ) (d : Day) : Option ℚ :=
  match sortedDates.findIdx? (fun x => x = d) with
  | none => none
  | some idx =>
    if idx < period then none
    else
      let cs := (maWindow sortedDates idx period).map (getSafePrice md primary)
      let valid := cs.filter (fun p => 0 < p)
      if valid.length = period then some (valid.sum / (period : ℚ)) else none

/-- Momentum helper `getMomentum` of `runSimulation`:
`(price[idx-1] / price[idx-1-period]) - 1` over safe closes, null when
the date is missing, too early, or either endpoint is non-positive. -/
def getMomentum (md : MD) (sortedDates : List Day) (primary : String)
    (period : ℕ) (d : Day) : Option ℚ :=
  match sortedDates.findIdx? (fun x => x = d) with
  | none => none
  | some idx =>
    if idx ≤ period then none
    else
      let pNow := getSafePrice md primary (sortedDates.getD (idx - 1) 0)
      let pThen := getSafePrice md primary (sortedDates.getD (idx - 1 - period) 0)
      if 0 < pNow ∧ 0 < pThen then some (pNow / pThen - 1) else none

/-- Truthiness gate `ma && pPrevClose > ma` of the signal block: a null
or zero indicator is falsy, otherwise the previous close must exceed it. -/
def maGate (o : Option ℚ) (pPrev : ℚ) : Bool :=
  match o with
  | some m => decide (m ≠ 0) && decide (m < pPrev)
  | none => false

/-- Gate `mom !== null && mom > 0` of the signal block. -/
def momGate (o : Option ℚ) : Bool :=
  match o with
  | some m => decide (0 < m)
  | none => false

/-- Active rule id: `strategy.rules?.[0]?.ruleId || 'rule_2'`. -/
def activeRuleIdOf (strat : Strategy) : String :=
  match strat.rules.head? with
  | some r => if r.ruleId = "" then "rule_2" else r.ruleId
  | none => "rule_2"

/-- Signal block (section B of the daily loop): the day's target risk-on
weight, a sum of fixed contributions gated by the rule's indicator
conditions.  The accumulator starts at 0 every day; no state from the
previous day enters. -/
def computeRiskOnW (strat : Strategy) (md : MD) (sortedDates : List Day)
    (primary : String) (d : Day) (pPrevClose : ℚ) : ℚ :=
  let rid := activeRuleIdOf strat
  if rid = "rule_4" then
    (if maGate (getMA md sortedDates primary 200 d) pPrevClose then 0.4 else 0)
    + (if momGate (getMomentum md sortedDates primary 126 d) then 0.3 else 0)
    + (if momGate (getMomentum md sortedDates primary 63 d) then 0.3 else 0)
  else if rid = "rule_3" then
    (if maGate (getMA md sortedDates primary 200 d) pPrevClose then 0.6 else 0)
    + (if maGate (getMA md sortedDates primary 50 d) pPrevClose then 0.4 else 0)
  else if rid = "rule_1" then
    (if maGate (getMA md sortedDates primary 50 d) pPrevClose then 0.5 else 0)
    + (if maGate (getMA md sortedDates primary 75 d) pPrevClose then 0.25 else 0)
    + (if maGate (getMA md sortedDates primary 100 d) pPrevClose then 0.25 else 0)
  else
    (if maGate (getMA md sortedDates primary 25 d) pPrevClose then 0.25 else 0)
    + (if maGate (getMA md sortedDates primary 50 d) pPrevClose then 0.5 else 0)
    + (if maGate (getMA md sortedDates primary 100 d) pPrevClose then 0.25 else 0)

/-- Proposition that every indicator consulted by the strategy's active
rule is null at the date (insufficient warmup history). -/
def ruleIndicatorsNull (strat : Strategy) (md : MD) (sortedDates : List Day)
    (primary : String) (d : Day) : Prop :=
  let rid := activeRuleIdOf strat
  if rid = "rule_4" then
    getMA md sortedDates primary 200 d = none
    ∧ getMomentum md sortedDates primary 126 d = none
    ∧ getMomentum md sortedDates primary 63 d = none
  else if rid = "rule_3" then
    getMA md sortedDates primary 200 d = none
    ∧ getMA md sortedDates primary 50 d = none
  else if rid = "rule_1" then
    getMA md sortedDates primary 50 d = none
    ∧ getMA md sortedDates primary 75 d = none
    ∧ getMA md sortedDates primary 100 d = none
  else
    getMA md sortedDates primary 25 d = none
    ∧ getMA md sortedDates primary 50 d = none
    ∧ getMA md sortedDates primary 100 d = none

instance (strat : Strategy) (md : MD) (sortedDates : List Day)
    (primary : String) (d : Day) :
    Decidable (ruleIndicatorsNull strat md sortedDates primary d) := by
  unfold ruleIndicatorsNull
  exact inferInstance

/-- Absolute week index used by the `BIWEEKLY` branch: milliseconds since
the Sunday 1970-01-04 (epoch day 3), floor-divided by one week. -/
def weekIdxOf (d : Day) : ℤ :=
  (jsGetTime d - jsGetTime 3).fdiv (7 * 24 * 3600 * 1000)

/-- Rebalance trigger `isRebalanceDay` of `runSimulation`.  Day 0 always
fires; the other branches compare calendar fields of the current and the
previous simulated date. -/
def isRebalanceDay (simDates : List Day) (freq : RebalanceFrequency)
    (d : Day) (index : ℕ) : Bool :=
  if index = 0 then true
  else
    let prev := simDates.getD (index - 1) 0
    match freq with
    | RebalanceFrequency.DAILY => true
    | RebalanceFrequency.WEEKLY => jsGetDay d < jsGetDay prev
    | RebalanceFrequency.BIWEEKLY =>
        (weekIdxOf d ≠ weekIdxOf prev) && (weekIdxOf d % 2 = 0)
    | RebalanceFrequency.MONTHLY => jsGetMonth d ≠ jsGetMonth prev
    | RebalanceFrequency.BIMONTHLY =>
        (jsGetMonth d ≠ jsGetMonth prev) && (jsGetMonth d % 2 = 0)
    | RebalanceFrequency.QUARTERLY => jsGetMonth d / 3 ≠ jsGetMonth prev / 3
    | RebalanceFrequency.SEMIANNUALLY => jsGetMonth d / 6 ≠ jsGetMonth prev / 6
    | RebalanceFrequency.ANNUALLY => jsGetFullYear d ≠ jsGetFullYear prev

/-- Target-weight table rebuilt on a rebalance trigger day (section C):
each component contributes its basket share of the day's regime weight. -/
def newTargetsOf (strat : Strategy) (symbols : List SymbolData) (w : ℚ) :
    List (String × ℚ) :=
  let afterOn := strat.riskOnComponents.foldl
    (fun acc c =>
      let t := resolveTicker symbols c.symbolId
      alSet acc t (alGet acc t + w * (c.allocation / 100))) []
  strat.riskOffComponents.foldl
    (fun acc c =>
      let t := resolveTicker symbols c.symbolId
      alSet acc t (alGet acc t + (1 - w) * (c.allocation / 100))) afterOn

/-- Accumulator threaded through the sell and buy phases of a rebalance
execution: holdings, cash, nav, and the trades pushed so far. -/
structure PhaseState where
  holdings : List (String × ℚ)
  cash : ℚ
  nav : ℚ
  trades : List SimTrade
  deriving DecidableEq, Repr

/-- One iteration of the SELL phase (section D of the daily loop) for a
held ticker: liquidate the overweight excess, credit the net proceeds to
cash and charge the cost against nav. -/
def sellOne (pref : PriceType) (tx slip : ℚ) (md : MD) (date : Day)
    (tw : List (String × ℚ)) (st : PhaseState) (t : String) : PhaseState :=
  let sellMultiplier := 1 - (tx + slip) / 100
  let price := getExecutionPrice pref md t date
  if price ≤ 0 then st
  else
    let targetVal := alGet tw t * st.nav
    let currentVal := alGet st.holdings t * price
    if targetVal + 1 < currentVal then
      let sellValRaw := currentVal - targetVal
      let qty := sellValRaw / price
      let cost := sellValRaw * (1 - sellMultiplier)
      let netCash := sellValRaw - cost
      { holdings := alSet st.holdings t (alGet st.holdings t - qty)
        cash := st.cash + netCash
        nav := st.nav - cost
        trades := st.trades ++ [⟨date, t, TradeSide.SELL, sellValRaw, qty, price⟩] }
    else st

/-- One iteration of the BUY phase (section D of the daily loop) for a
targeted ticker: buy toward the target weight, shrinking the notional to
`cash / costMultiplier` when the desired notional plus its fees would
exceed the cash on hand, and trading only when the (possibly shrunk)
notional exceeds 1. -/
def buyOne (pref : PriceType) (tx slip : ℚ) (md : MD) (date : Day)
    (tw : List (String × ℚ)) (st : PhaseState) (t : String) : PhaseState :=
  let costMultiplier := 1 + (tx + slip) / 100
  let price := getExecutionPrice pref md t date
  if price ≤ 0 then st
  else
    let targetVal := alGet tw t * st.nav
    let currentVal := alGet st.holdings t * price
    if currentVal + 1 < targetVal then
      let buyValDesired0 := targetVal - currentVal
      let totalCostForDesired := buyValDesired0 * (costMultiplier - 1)
      let buyValDesired :=
        if st.cash < buyValDesired0 + totalCostForDesired then st.cash / costMultiplier
        else buyValDesired0
      if 1 < buyValDesired then
        let cost := buyValDesired * (costMultiplier - 1)
        let qty := buyValDesired / price
        { holdings := alSet st.holdings t (alGet st.holdings t + qty)
          cash := st.cash - (buyValDesired + cost)
          nav := st.nav - cost
          trades := st.trades ++ [⟨date, t, TradeSide.BUY, buyValDesired, qty, price⟩] }
      else st
    else st

/-- Rebalance execution (section D): the SELL phase over the currently
held tickers followed by the BUY phase over the targeted tickers. -/
def execRebalance (pref : PriceType) (tx slip : ℚ) (md : MD) (date : Day)
    (tw holdings0 : List (String × ℚ)) (cash0 nav0 : ℚ) : PhaseState :=
  let afterSell := (holdings0.map (fun p => p.1)).foldl
    (sellOne pref tx slip md date tw) ⟨holdings0, cash0, nav0, []⟩
  (tw.map (fun p => p.1)).foldl (buyOne pref tx slip md date tw) afterSell

/-- JavaScript `Number(x.toFixed(2))` on exact rationals: round to two
decimal places. -/
def toFixed2 (x : ℚ) : ℚ := (round (x * 100) : ℤ) / 100

/-- Full per-day simulation state of the loop in section 4 of
`runSimulation`. -/
structure SimState where
  nav : ℚ
  cash : ℚ
  holdings : List (String × ℚ)
  series : List SimResultPoint
  trades : List SimTrade
  regimeSwitches : List RegimeSwitch
  lastLoggedRegime : ℚ
  targetWeights : List (String × ℚ)
  pendingRebalanceDay : Option ℕ
  deriving DecidableEq, Repr

/-- Initial loop state: all capital in cash, no holdings, no records,
`lastLoggedRegime = -1`, no pending rebalance. -/
def initState (strat : Strategy) : SimState :=
  { nav := strat.initialCapital
    cash := strat.initialCapital
    holdings := []
    series := []
    trades := []
    regimeSwitches := []
    lastLoggedRegime := -1
    targetWeights := []
    pendingRebalanceDay := none }

/-- One iteration of the daily loop of `runSimulation`: mark-to-market,
benchmark NAV, signal, regime-switch log, rebalance trigger, rebalance
execution, and the appended `SimResultPoint`.  Over exact rationals the
`isNaN || !isFinite` guard of section A can never fire; the guard itself
is modelled in the `JsNum` development below. -/
def dayStep (strat : Strategy) (symbols : List SymbolData) (md : MD)
    (sortedDates simDates : List Day) (benchmarkTicker primary : String)
    (bmStart : ℚ) (st : SimState) (ia : ℕ × Day) : SimState :=
  let i := ia.1
  let date := ia.2
  let nav := st.holdings.foldl
    (fun acc tq => acc + tq.2 * getSafePrice md tq.1 date) st.cash
  let bmPrice := getSafePrice md benchmarkTicker date
  let bmNav := bmPrice / (if bmStart = 0 then 1 else bmStart) * strat.initialCapital
  let prevD := if i = 0 then date else simDates.getD (i - 1) 0
  let pPrevClose := getSafePrice md primary prevD
  let w := computeRiskOnW strat md sortedDates primary date pPrevClose
  let regimeSwitches :=
    if st.lastLoggedRegime ≠ -1 ∧ (1 : ℚ) / 100 < |w - st.lastLoggedRegime| then
      st.regimeSwitches ++ [⟨date, st.lastLoggedRegime, w⟩]
    else st.regimeSwitches
  let trigger := isRebalanceDay simDates strat.rebalanceFreq date i
  let tw := if trigger then newTargetsOf strat symbols w else st.targetWeights
  let pending :=
    if trigger then
      match st.pendingRebalanceDay with
      | none => some (i + strat.executionDelay)
      | some p => some p
    else st.pendingRebalanceDay
  let doExec : Bool :=
    match pending with
    | some p => decide (p ≤ i)
    | none => false
  let ph := execRebalance strat.pricePreference strat.transactionCostPct
    strat.slippagePct md date tw st.holdings st.cash nav
  { nav := if doExec then ph.nav else nav
    cash := if doExec then ph.cash else st.cash
    holdings := if doExec then ph.holdings else st.holdings
    series := st.series ++
      [⟨date, if doExec then ph.nav else nav, bmNav,
        toFixed2 (w * 100), toFixed2 ((1 - w) * 100), doExec⟩]
    trades := if doExec then st.trades ++ ph.trades else st.trades
    regimeSwitches := regimeSwitches
    lastLoggedRegime := w
    targetWeights := tw
    pendingRebalanceDay := if doExec then none else pending }

/-- Inputs of one simulation run once the market data is loaded:
strategy, symbol table, loaded per-ticker data, and the optional
requested date bounds. -/
structure SimCtx where
  strat : Strategy
  symbols : List SymbolData
  md : MD
  startDate : Option Day
  endDate : Option Day
  deriving Repr

/-- Resolved risk-on tickers of the run. -/
def riskOnTickersOf (ctx : SimCtx) : List String :=
  ctx.strat.riskOnComponents.map (fun c => resolveTicker ctx.symbols c.symbolId)

/-- Resolved risk-off tickers of the run. -/
def riskOffTickersOf (ctx : SimCtx) : List String :=
  ctx.strat.riskOffComponents.map (fun c => resolveTicker ctx.symbols c.symbolId)

/-- All required tickers:
`Array.from(new Set([benchmarkTicker, ...riskOn, ...riskOff])).filter(t => t)`. -/
def allTickersOf (ctx : SimCtx) : List String :=
  (jsDedup (benchmarkTickerOf ctx.symbols ctx.strat ::
    (riskOnTickersOf ctx ++ riskOffTickersOf ctx))).filter (fun t => t ≠ "")

/-- Unified date axis: the union of all loaded tickers' dates, deduplicated
and sorted ascending (`Array.from(datesSet).sort()`; lexicographic ISO
order equals day-number order). -/
def sortedDatesOf (ctx : SimCtx) : List Day :=
  (jsDedup ((allTickersOf ctx).flatMap
    (fun t => ((mdFind ctx.md t).getD []).map (fun p => p.1)))).insertionSort (· ≤ ·)

/-- Predicate of the range-alignment scan: every required ticker has a
point at the date. -/
def allHave (ctx : SimCtx) (d : Day) : Bool :=
  (allTickersOf ctx).all (fun t => mdHas ctx.md t d)

/-- Index of the earliest feasible start (section 2 of `runSimulation`):
the first axis position where every required ticker has a data point,
or 0 when no such position exists. -/
def firstCommonIdxOf (ctx : SimCtx) : ℕ :=
  match (sortedDatesOf ctx).findIdx? (allHave ctx) with
  | some i => i
  | none => 0

/-- Raw requested start index: `findIndex(d => d >= startDate)`, `-1` when
absent, or the feasible index when no start date was requested. -/
def sIdxRawOf (ctx : SimCtx) : ℤ :=
  match ctx.startDate with
  | some sd =>
    match (sortedDatesOf ctx).findIdx? (fun d => sd ≤ d) with
    | some i => (i : ℤ)
    | none => -1
  | none => (firstCommonIdxOf ctx : ℤ)

/-- Start index after the clamp `if (sIdx < firstCommonIdx) sIdx = firstCommonIdx`. -/
def sIdxOf (ctx : SimCtx) : ℤ :=
  if sIdxRawOf ctx < (firstCommonIdxOf ctx : ℤ) then (firstCommonIdxOf ctx : ℤ)
  else sIdxRawOf ctx

/-- End index: `findIndex(d => d >= endDate)` with fallback to the last
axis position when absent or not found. -/
def eIdxOf (ctx : SimCtx) : ℤ :=
  match ctx.endDate with
  | some ed =>
    match (sortedDatesOf ctx).findIdx? (fun d => ed ≤ d) with
    | some i => (i : ℤ)
    | none => ((sortedDatesOf ctx).length : ℤ) - 1
  | none => ((sortedDatesOf ctx).length : ℤ) - 1

/-- Aligned simulation window `sortedDates.slice(sIdx, eIdx + 1)`. -/
def simDatesOf (ctx : SimCtx) : List Day :=
  ((sortedDatesOf ctx).take (eIdxOf ctx + 1).toNat).drop (sIdxOf ctx).toNat

/-- Primary signal ticker: the first risk-on component's ticker
(`riskOnTickers[0]`); the empty string when the basket is empty, which
makes every price lookup fall back to 0 just as an undefined ticker does. -/
def primaryTickerOf (ctx : SimCtx) : String := (riskOnTickersOf ctx).getD 0 ""

/-- Benchmark starting price `getSafePrice(benchmarkTicker, simDates[0])`. -/
def bmStartOf (ctx : SimCtx) : ℚ :=
  getSafePrice ctx.md (benchmarkTickerOf ctx.symbols ctx.strat)
    ((simDatesOf ctx).getD 0 0)

/-- Daily loop step specialised to a run context. -/
def dayStepC (ctx : SimCtx) (st : SimState) (ia : ℕ × Day) : SimState :=
  dayStep ctx.strat ctx.symbols ctx.md (sortedDatesOf ctx) (simDatesOf ctx)
    (benchmarkTickerOf ctx.symbols ctx.strat) (primaryTickerOf ctx)
    (bmStartOf ctx) st ia

/-- Loop state after the first `k` simulated days. -/
def stateAfter (ctx : SimCtx) (k : ℕ) : SimState :=
  (((simDatesOf ctx).enum).take k).foldl (dayStepC ctx) (initState ctx.strat)

/-- Core of `runSimulation` once data is loaded: the missing-history
check over the required tickers, the range alignment with its
too-narrow guard, and the daily loop. -/
def runSimCore (ctx : SimCtx) : Except SimError DetailedSimResult :=
  match (allTickersOf ctx).find? (fun t => ((mdFind ctx.md t).getD []).isEmpty) with
  | some t => Except.error (SimError.missingHistory t)
  | none =>
    if (simDatesOf ctx).length < 5 then Except.error SimError.rangeTooNarrow
    else
      let fin := ((simDatesOf ctx).enum).foldl (dayStepC ctx) (initState ctx.strat)
      Except.ok ⟨fin.series, fin.trades, fin.regimeSwitches⟩

/-- Association set on market-data storage (`saveMarketData`). -/
def mdSet (md : MD) (t : String) (data : List (Day × MarketDataPoint)) : MD :=
  match md with
  | [] => [(t, data)]
  | p :: rest => if p.1 = t then (t, data) :: rest else p :: mdSet rest t data

/-- External storage collaborator visible to the engine: the market-data
store and the saved strategies (`StorageService`). -/
structure Storage where
  marketData : MD
  strategies : List Strategy
  deriving Repr

/-- Data-loading phase (section 1 of `runSimulation`) over the required
tickers: a stored series must exist and be non-empty; a `STRAT:`-prefixed
ticker with no stored series is materialized by recursively running the
referenced sub-strategy (through the `recur` callback) and saving its NAV
series as a synthetic flat OHLC series. -/
def loadAll
    (recur : Storage → Strategy → Except SimError (DetailedSimResult × Storage)) :
    List String → Storage → Except SimError Storage
  | [], store => Except.ok store
  | t :: rest, store =>
    match mdFind store.marketData t with
    | some data =>
      if data.isEmpty then Except.error (SimError.missingHistory t)
      else loadAll recur rest store
    | none =>
      if strStartsWith t "STRAT:" then
        match store.strategies.find? (fun s => s.id = t.drop 6) with
        | some sub =>
          match recur store sub with
          | Except.error e => Except.error e
          | Except.ok (res, store2) =>
            let data := res.series.map
              (fun p => (p.date, (⟨p.value, p.value, p.value, p.value, 0⟩ : MarketDataPoint)))
            if data.isEmpty then Except.error (SimError.missingHistory t)
            else loadAll recur rest ⟨mdSet store2.marketData t data, store2.strategies⟩
        | none => Except.error (SimError.missingHistory t)
      else Except.error (SimError.missingHistory t)

/-- Full `runSimulation`, fuel-indexed: the data-loading phase (which may
recurse into sub-strategies) followed by the simulation core.  Exhausted
fuel models non-termination of the recursion (in JavaScript, a stack
overflow); the source has no cycle detection of any kind. -/
def runSimulation : ℕ → Storage → List SymbolData → Option Day → Option Day →
    Strategy → Except SimError (DetailedSimResult × Storage)
  | 0, _, _, _, _, _ => Except.error SimError.outOfFuel
  | fuel + 1, store, symbols, sd, ed, strat =>
    match loadAll (fun st s => runSimulation fuel st symbols none none s)
        (allTickersOf ⟨strat, symbols, store.marketData, sd, ed⟩) store with
    | Except.error e => Except.error e
    | Except.ok store2 =>
      match runSimCore ⟨strat, symbols, store2.marketData, sd, ed⟩ with
      | Except.error e => Except.error e
      | Except.ok r => Except.ok (r, store2)

/-- JavaScript number abstraction keeping track of non-finite values:
an exact rational, one of the two infinities, or NaN.  Finite arithmetic
is exact (no overflow is modelled). -/
inductive JsNum where
  | fin (q : ℚ)
  | pinf
  | ninf
  | nan
  deriving DecidableEq, Repr

/-- JavaScript `isFinite` (note `isFinite(NaN) = false`). -/
def JsNum.isFiniteJ : JsNum → Bool
  | JsNum.fin _ => true
  | _ => false

/-- IEEE-style addition on `JsNum`. -/
def jadd : JsNum → JsNum → JsNum
  | JsNum.nan, _ => JsNum.nan
  | _, JsNum.nan => JsNum.nan
  | JsNum.fin a, JsNum.fin b => JsNum.fin (a + b)
  | JsNum.fin _, JsNum.pinf => JsNum.pinf
  | JsNum.fin _, JsNum.ninf => JsNum.ninf
  | JsNum.pinf, JsNum.fin _ => JsNum.pinf
  | JsNum.ninf, JsNum.fin _ => JsNum.ninf
  | JsNum.pinf, JsNum.pinf => JsNum.pinf
  | JsNum.ninf, JsNum.ninf => JsNum.ninf
  | JsNum.pinf, JsNum.ninf => JsNum.nan
  | JsNum.ninf, JsNum.pinf => JsNum.nan

/-- IEEE-style multiplication on `JsNum` (`0 * ±∞ = NaN`). -/
def jmul : JsNum → JsNum → JsNum
  | JsNum.nan, _ => JsNum.nan
  | _, JsNum.nan => JsNum.nan
  | JsNum.fin a, JsNum.fin b => JsNum.fin (a * b)
  | JsNum.fin a, JsNum.pinf =>
    if 0 < a then JsNum.pinf else if a < 0 then JsNum.ninf else JsNum.nan
  | JsNum.fin a, JsNum.ninf =>
    if 0 < a then JsNum.ninf else if a < 0 then JsNum.pinf else JsNum.nan
  | JsNum.pinf, JsNum.fin b =>
    if 0 < b then JsNum.pinf else if b < 0 then JsNum.ninf else JsNum.nan
  | JsNum.ninf, JsNum.fin b =>
    if 0 < b then JsNum.ninf else if b < 0 then JsNum.pinf else JsNum.nan
  | JsNum.pinf, JsNum.pinf => JsNum.pinf
  | JsNum.pinf, JsNum.ninf => JsNum.ninf
  | JsNum.ninf, JsNum.pinf => JsNum.ninf
  | JsNum.ninf, JsNum.ninf => JsNum.pinf

/-- JavaScript `x > 0` on a `JsNum` (false for NaN). -/
def jsGtZero : JsNum → Bool
  | JsNum.fin q => decide (0 < q)
  | JsNum.pinf => true
  | JsNum.ninf => false
  | JsNum.nan => false

/-- Close-value store for the non-finite-aware model of the engine's
mark-to-market step (only the `close` field enters that step). -/
abbrev MDJ := List (String × List (Day × JsNum))

/-- Close lookup in the `JsNum` model. -/
def mdGetJ (md : MDJ) (t : String) (d : Day) : Option JsNum :=
  match (md.find? (fun p => p.1 = t)).map (fun p => p.2) with
  | none => none
  | some l => (l.find? (fun p => p.1 = d)).map (fun p => p.2)

/-- `getSafePrice` in the `JsNum` model: the close when present and
`> 0` in JavaScript comparison semantics, else 0. -/
def getSafePriceJ (md : MDJ) (t : String) (d : Day) : JsNum :=
  match mdGetJ md t d with
  | some c => if jsGtZero c then c else JsNum.fin 0
  | none => JsNum.fin 0

/-- Section A mark-to-market sum `cash + Σ holdings[t] * getSafePrice(t, date)`
in the `JsNum` model. -/
def rawNavJ (md : MDJ) (d : Day) (cash : JsNum)
    (holdings : List (String × JsNum)) : JsNum :=
  holdings.foldl (fun acc tq => jadd acc (jmul tq.2 (getSafePriceJ md tq.1 d))) cash

/-- Section A guard `if (isNaN(nav) || !isFinite(nav)) nav = initialCapital`:
the recorded NAV of the day. -/
def navGuardJ (initialCapital : ℚ) (raw : JsNum) : JsNum :=
  if raw.isFiniteJ then raw else JsNum.fin initialCapital

/-- Moving average as the specification words it (§4.2): the plain mean
of the `period` most recent valid (positive-close) points of the primary
ticker's own history strictly before `asOf`, or null when fewer than
`period` valid points exist.  Stated from the spec for comparison with
the source's `getMA`. -/
def specMovingAverage (md : MD) (primary : String) (period : ℕ) (asOf : Day) :
    Option ℚ :=
  let hist := ((mdFind md primary).getD []).filter
    (fun pd => decide (pd.1 < asOf ∧ 0 < pd.2.close))
  let sorted := hist.insertionSort (fun a b => a.1 ≤ b.1)
  if sorted.length < period then none
  else some (((sorted.drop (sorted.length - period)).map
    (fun pd => pd.2.close)).sum / (period : ℚ))

/-- Execution-price selection as the specification words it (§4.5): the
`priceField`-selected component of the day's bar, one of
open/high/low/close/average-of-HLC.  Stated from the spec for comparison
with the source's `getExecutionPrice`. -/
def specSelectPrice (pref : PriceType) (p : MarketDataPoint) : ℚ :=
  match pref with
  | PriceType.OPEN => p.open_
  | PriceType.HIGH => p.high
  | PriceType.LOW => p.low
  | PriceType.CLOSE => p.close
  | PriceType.AVG => (p.high + p.low + p.close) / 3

/-- Sum of the gross notionals of the trades on one side. -/
def sumSide (side : TradeSide) (l : List SimTrade) : ℚ :=
  ((l.filter (fun t => t.type = side)).map (fun t => t.value)).sum

/-- Sum of the transaction costs charged on a list of trades at a
proportional rate. -/
def sumCosts (rate : ℚ) (l : List SimTrade) : ℚ :=
  (l.map (fun t => t.value * rate)).sum

/-- Flat OHLC bar at a single price. -/
def flatPt (c : ℚ) : MarketDataPoint := ⟨c, c, c, c, 0⟩

/-- Concrete symbol table for the witness runs. -/
def symW : List SymbolData := [⟨"sA", "AAA", "Asset A"⟩, ⟨"sB", "BBB", "Asset B"⟩]

/-- Concrete strategy for the witness runs: rule_1, daily rebalancing,
no costs, no delay. -/
def stratW : Strategy :=
  { id := "w1"
    name := "warmup"
    rebalanceFreq := RebalanceFrequency.DAILY
    pricePreference := PriceType.CLOSE
    executionDelay := 0
    initialCapital := 10000
    transactionCostPct := 0
    slippagePct := 0
    benchmarkSymbolId := "sA"
    riskOnComponents := [⟨"sA", true, 100⟩]
    riskOffComponents := [⟨"sB", true, 100⟩]
    rules := [⟨"rule_1", 100⟩] }

/-- Six flat days of data for both tickers. -/
def mdW : MD :=
  [("AAA", (List.range 6).map (fun i => (i, flatPt 10))),
   ("BBB", (List.range 6).map (fun i => (i, flatPt 20)))]

/-- Witness run context: six warmup days (every rule indicator null). -/
def ctxW : SimCtx := ⟨stratW, symW, mdW, none, none⟩

/-- Scenario A data: AAA has history from day 0, BBB only from day 5. -/
def mdA : MD :=
  [("AAA", (List.range 10).map (fun i => (i, flatPt 10))),
   ("BBB", (List.range 5).map (fun i => (i + 5, flatPt 20)))]

/-- Scenario A context with a requested start (day 0) earlier than the
feasible start (day 5). -/
def ctxA : SimCtx := ⟨stratW, symW, mdA, some 0, none⟩

/-- History with a zero-close gap: valid closes on days 0-3 and 5, an
unusable bar on day 4. -/
def mdC5 : MD :=
  [("P", [(0, flatPt 10), (1, flatPt 10), (2, flatPt 12), (3, flatPt 14),
          (4, flatPt 0), (5, flatPt 20)])]

/-- Date axis of `mdC5`. -/
def sdC5 : List Day := [0, 1, 2, 3, 4, 5]

/-- Bar whose four price fields all differ. -/
def ptC7 : MarketDataPoint := ⟨1, 5, 2, 3, 0⟩

/-- Single-ticker data holding `ptC7` at day 0. -/
def mdC7 : MD := [("A", [(0, ptC7)])]

/-- Strategy whose risk-on component references the strategy itself
(`STRAT:` + its own id): a direct composite self-reference. -/
def stratSelf : Strategy :=
  { id := "s1"
    name := "self"
    rebalanceFreq := RebalanceFrequency.DAILY
    pricePreference := PriceType.CLOSE
    executionDelay := 0
    initialCapital := 10000
    transactionCostPct := 0
    slippagePct := 0
    benchmarkSymbolId := ""
    riskOnComponents := [⟨"STRAT:s1", true, 100⟩]
    riskOffComponents := []
    rules := [] }

/-- Storage for the self-reference run: benchmark data present, the
self-referencing strategy saved, no cached series for `STRAT:s1`. -/
def store0 : Storage :=
  ⟨[("SPY", (List.range 6).map (fun i => (i, flatPt 10)))], [stratSelf]⟩

/-- Concrete `JsNum` store holding an infinite close for a ticker. -/
def mdJ9 : MDJ := [("X", [(0, JsNum.pinf)])]

/-- First recorded risk-on percentage of a run result. -/
def firstRiskOn (r : Except SimError DetailedSimResult) : Option ℚ :=
  match r with
  | Except.ok res => res.series.head?.map (fun p => p.riskOn)
  | Except.error _ => none

instance : Inhabited DetailedSimResult := ⟨⟨[], [], []⟩⟩

instance {ε α : Type} [DecidableEq ε] [DecidableEq α] :
    DecidableEq (Except ε α) := fun a b =>
  match a, b with
  | Except.ok x, Except.ok y => decidable_of_iff (x = y) (by simp)
  | Except.error x, Except.error y => decidable_of_iff (x = y) (by simp)
  | Except.ok _, Except.error _ => isFalse (by simp)
  | Except.error _, Except.ok _ => isFalse (by simp)

/-- Successful result of a run, defaulting to the empty result. -/
def okOf (r : Except SimError DetailedSimResult) : DetailedSimResult :=
  match r with
  | Except.ok res => res
  | Except.error _ => default

/-- Unfolding step for the self-referencing run: the load phase reaches
`STRAT:s1`, finds no stored series, finds the strategy itself in storage
and re-enters `runSimulation` on it, so an out-of-fuel inner run makes
the outer run out-of-fuel as well. -/
theorem runSimulation_self_step (n : ℕ)
    (h : runSimulation n store0 [] none none stratSelf
      = Except.error SimError.outOfFuel) :
    runSimulation (n + 1) store0 [] none none stratSelf
      = Except.error SimError.outOfFuel := by
  have hu : runSimulation (n + 1) store0 [] none none stratSelf =
      match (match runSimulation n store0 [] none none stratSelf with
             | Except.error e => Except.error e
             | Except.ok (res, store2) =>
               let data := res.series.map
                 (fun p : SimResultPoint => (p.date,
                   (⟨p.value, p.value, p.value, p.value, 0⟩ : MarketDataPoint)))
               if data.isEmpty then
                 Except.error (SimError.missingHistory "STRAT:s1")
               else
                 loadAll (fun st s => runSimulation n st [] none none s) []
                   ⟨mdSet store2.marketData "STRAT:s1" data, store2.strategies⟩) with
      | Except.error e => Except.error e
      | Except.ok store2 =>
        match runSimCore ⟨stratSelf, [], store2.marketData, none, none⟩ with
        | Except.error e => Except.error e
        | Except.ok r => Except.ok (r, store2) := rfl
  rw [hu, h]

/-- C1: the spec requires a composite strategy that directly references
itself to be rejected with a `CircularDependencyError` before any
simulation math executes.  The source has no cycle detection at all (no
`CircularDependencyError` exists in the repository): on a direct
self-reference with no cached series, the load phase re-enters
`runSimulation` on the very same strategy, so for every recursion budget
the run ends by exhausting it (a stack overflow in JavaScript) — it
neither raises a circular-dependency error nor completes. -/
theorem c1_self_reference_diverges :
    ∀ fuel : ℕ, runSimulation fuel store0 [] none none stratSelf
      = Except.error SimError.outOfFuel := by
  intro fuel
  induction fuel with
  | zero => rfl
  | succ n ih => exact runSimulation_self_step n ih

/-- Preservation of a predicate along a left fold. -/
theorem foldl_preserve {α β : Type} (P : β → Prop) (f : β → α → β)
    (hstep : ∀ b a, P b → P (f b a)) :
    ∀ (l : List α) (b : β), P b → P (l.foldl f b) := by
  intro l
  induction l with
  | nil => intro b hb; exact hb
  | cons a lt ih => intro b hb; exact ih (f b a) (hstep b a hb)

/-- Case analysis of one SELL-phase iteration: either the state is
untouched, or a sell of some notional `v > 1` executes at the execution
price, crediting `v - v·rate` to cash and appending one SELL trade. -/
theorem sellOne_spec (pref : PriceType) (tx slip : ℚ) (md : MD) (date : Day)
    (tw : List (String × ℚ)) (st : PhaseState) (t : String) :
    sellOne pref tx slip md date tw st t = st ∨
    ∃ v, 1 < v ∧ 0 < getExecutionPrice pref md t date ∧
      (sellOne pref tx slip md date tw st t).cash
        = st.cash + v * (1 - (tx + slip) / 100) ∧
      (sellOne pref tx slip md date tw st t).trades
        = st.trades ++ [⟨date, t, TradeSide.SELL, v,
            v / getExecutionPrice pref md t date,
            getExecutionPrice pref md t date⟩] := by
  unfold sellOne
  by_cases hp : getExecutionPrice pref md t date ≤ 0
  · left; simp [hp]
  · by_cases hc : alGet tw t * st.nav + 1 < alGet st.holdings t * getExecutionPrice pref md t date
    · right
      refine ⟨alGet st.holdings t * getExecutionPrice pref md t date - alGet tw t * st.nav,
        by linarith, by linarith, ?_, ?_⟩
      · simp only [if_neg hp, if_pos hc]
        ring
      · simp only [if_neg hp, if_pos hc]
    · left; simp [hp, hc]

/-- Case analysis of one BUY-phase iteration: either the state is
untouched, or a buy of some notional `v > 1` executes at the execution
price, debiting `v + v·rate` from cash and appending one BUY trade. -/
theorem buyOne_spec (pref : PriceType) (tx slip : ℚ) (md : MD) (date : Day)
    (tw : List (String × ℚ)) (st : PhaseState) (t : String) :
    buyOne pref tx slip md date tw st t = st ∨
    ∃ v, 1 < v ∧ 0 < getExecutionPrice pref md t date ∧
      (buyOne pref tx slip md date tw st t).cash
        = st.cash - v * (1 + (tx + slip) / 100) ∧
      (buyOne pref tx slip md date tw st t).trades
        = st.trades ++ [⟨date, t, TradeSide.BUY, v,
            v / getExecutionPrice pref md t date,
            getExecutionPrice pref md t date⟩] := by
  unfold buyOne
  by_cases hp : getExecutionPrice pref md t date ≤ 0
  · left; simp [hp]
  · by_cases hc : alGet st.holdings t * getExecutionPrice pref md t date + 1
        < alGet tw t * st.nav
    · simp only [if_neg hp, if_pos hc]
      set v0 := alGet tw t * st.nav
        - alGet st.holdings t * getExecutionPrice pref md t date with hv0
      set v := if st.cash < v0 + v0 * (1 + (tx + slip) / 100 - 1) then
          st.cash / (1 + (tx + slip) / 100) else v0 with hv
      by_cases h1 : 1 < v
      · right
        refine ⟨v, h1, by linarith, ?_, ?_⟩
        · simp only [if_pos h1]
          ring
        · simp only [if_pos h1]
      · left
        simp only [if_neg h1]
    · left; simp [hp, hc]

/-- SELL-phase fold: trades are appended only, each appended trade is a
SELL of notional above the dust threshold priced at the execution price
of its ticker, and cash grows by exactly the net proceeds of those
trades. -/
theorem sellPhase_spec (pref : PriceType) (tx slip : ℚ) (md : MD) (date : Day)
    (tw : List (String × ℚ)) :
    ∀ (ts : List String) (st : PhaseState),
    ∃ new,
      (ts.foldl (sellOne pref tx slip md date tw) st).trades = st.trades ++ new
      ∧ (ts.foldl (sellOne pref tx slip md date tw) st).cash
          = st.cash + (new.map (fun tr => tr.value * (1 - (tx + slip) / 100))).sum
      ∧ ∀ tr ∈ new, tr.type = TradeSide.SELL ∧ 1 < tr.value ∧ tr.date = date
          ∧ 0 < tr.price ∧ tr.price = getExecutionPrice pref md tr.ticker date := by
  intro ts
  induction ts with
  | nil =>
    intro st
    exact ⟨[], by simp, by simp, by simp⟩
  | cons t rest ih =>
    intro st
    obtain ⟨new1, ht1, hc1, hp1⟩ := ih (sellOne pref tx slip md date tw st t)
    rcases sellOne_spec pref tx slip md date tw st t with heq | ⟨v, hv1, hvp, hcash, htr⟩
    · refine ⟨new1, ?_, ?_, hp1⟩
      · rw [List.foldl_cons, ht1, heq]
      · rw [List.foldl_cons, hc1, heq]
    · refine ⟨⟨date, t, TradeSide.SELL, v, v / getExecutionPrice pref md t date,
        getExecutionPrice pref md t date⟩ :: new1, ?_, ?_, ?_⟩
      · rw [List.foldl_cons, ht1, htr]
        simp
      · rw [List.foldl_cons, hc1, hcash]
        simp only [List.map_cons, List.sum_cons]
        ring
      · intro tr htr'
        rcases List.mem_cons.mp htr' with h | h
        · subst h
          exact ⟨rfl, hv1, rfl, hvp, rfl⟩
        · exact hp1 tr h

/-- BUY-phase fold: trades are appended only, each appended trade is a
BUY of notional above the dust threshold priced at the execution price
of its ticker, and cash shrinks by exactly the gross spends of those
trades. -/
theorem buyPhase_spec (pref : PriceType) (tx slip : ℚ) (md : MD) (date : Day)
    (tw : List (String × ℚ)) :
    ∀ (ts : List String) (st : PhaseState),
    ∃ new,
      (ts.foldl (buyOne pref tx slip md date tw) st).trades = st.trades ++ new
      ∧ (ts.foldl (buyOne pref tx slip md date tw) st).cash
          = st.cash - (new.map (fun tr => tr.value * (1 + (tx + slip) / 100))).sum
      ∧ ∀ tr ∈ new, tr.type = TradeSide.BUY ∧ 1 < tr.value ∧ tr.date = date
          ∧ 0 < tr.price ∧ tr.price = getExecutionPrice pref md tr.ticker date := by
  intro ts
  induction ts with
  | nil =>
    intro st
    exact ⟨[], by simp, by simp, by simp⟩
  | cons t rest ih =>
    intro st
    obtain ⟨new1, ht1, hc1, hp1⟩ := ih (buyOne pref tx slip md date tw st t)
    rcases buyOne_spec pref tx slip md date tw st t with heq | ⟨v, hv1, hvp, hcash, htr⟩
    · refine ⟨new1, ?_, ?_, hp1⟩
      · rw [List.foldl_cons, ht1, heq]
      · rw [List.foldl_cons, hc1, heq]
    · refine ⟨⟨date, t, TradeSide.BUY, v, v / getExecutionPrice pref md t date,
        getExecutionPrice pref md t date⟩ :: new1, ?_, ?_, ?_⟩
      · rw [List.foldl_cons, ht1, htr]
        simp
      · rw [List.foldl_cons, hc1, hcash]
        simp only [List.map_cons, List.sum_cons]
        ring
      · intro tr htr'
        rcases List.mem_cons.mp htr' with h | h
        · subst h
          exact ⟨rfl, hv1, rfl, hvp, rfl⟩
        · exact hp1 tr h

/-- Sum of a difference of maps splits. -/
theorem sum_map_sub {α : Type} (f g : α → ℚ) (l : List α) :
    (l.map (fun x => f x - g x)).sum = (l.map f).sum - (l.map g).sum := by
  induction l with
  | nil => simp
  | cons a lt ih => simp [ih]; ring

/-- Sum of a sum of maps splits. -/
theorem sum_map_add {α : Type} (f g : α → ℚ) (l : List α) :
    (l.map (fun x => f x + g x)).sum = (l.map f).sum + (l.map g).sum := by
  induction l with
  | nil => simp
  | cons a lt ih => simp [ih]; ring

/-- One-sided trade lists: `sumSide` keeps everything on the matching
side and nothing on the other. -/
theorem sumSide_of_all {l : List SimTrade} {side : TradeSide}
    (h : ∀ tr ∈ l, tr.type = side) :
    sumSide side l = (l.map (fun tr => tr.value)).sum
    ∧ ∀ other, other ≠ side → sumSide other l = 0 := by
  constructor
  · unfold sumSide
    rw [List.filter_eq_self.mpr (fun a ha => by simp [h a ha])]
  · intro other hne
    unfold sumSide
    rw [List.filter_eq_nil_iff.mpr]
    · simp
    · intro a ha
      simp [h a ha]
      exact fun hEq => hne hEq.symm

/-- Cash ledger equation of one full rebalance execution (sell phase then
buy phase): the ending cash is the starting cash plus the gross sell
notionals, minus the gross buy notionals, minus the proportional
transaction costs charged on every trade of the execution. -/
theorem execRebalance_cash_eq (pref : PriceType) (tx slip : ℚ) (md : MD)
    (date : Day) (tw holdings0 : List (String × ℚ)) (cash0 nav0 : ℚ) :
    (execRebalance pref tx slip md date tw holdings0 cash0 nav0).cash
      = cash0
        + sumSide TradeSide.SELL
            (execRebalance pref tx slip md date tw holdings0 cash0 nav0).trades
        - sumSide TradeSide.BUY
            (execRebalance pref tx slip md date tw holdings0 cash0 nav0).trades
        - sumCosts ((tx + slip) / 100)
            (execRebalance pref tx slip md date tw holdings0 cash0 nav0).trades := by
  unfold execRebalance
  obtain ⟨newS, hts, hcs, hps⟩ := sellPhase_spec pref tx slip md date tw
    (holdings0.map (fun p => p.1)) ⟨holdings0, cash0, nav0, []⟩
  obtain ⟨newB, htb, hcb, hpb⟩ := buyPhase_spec pref tx slip md date tw
    (tw.map (fun p => p.1))
    ((holdings0.map (fun p => p.1)).foldl (sellOne pref tx slip md date tw)
      ⟨holdings0, cash0, nav0, []⟩)
  rw [htb, hts, hcb, hcs]
  simp only [List.nil_append]
  have hSside : ∀ tr ∈ newS, tr.type = TradeSide.SELL := fun tr h => (hps tr h).1
  have hBside : ∀ tr ∈ newB, tr.type = TradeSide.BUY := fun tr h => (hpb tr h).1
  have hS := sumSide_of_all hSside
  have hB := sumSide_of_all hBside
  have h1 : sumSide TradeSide.SELL (newS ++ newB)
      = (newS.map (fun tr => tr.value)).sum := by
    unfold sumSide at hS hB ⊢
    rw [List.filter_append]
    rw [List.filter_eq_self.mpr (fun a ha => by simp [hSside a ha]),
      List.filter_eq_nil_iff.mpr (fun a ha => by simp [hBside a ha])]
    simp
  have h2 : sumSide TradeSide.BUY (newS ++ newB)
      = (newB.map (fun tr => tr.value)).sum := by
    unfold sumSide
    rw [List.filter_append]
    rw [List.filter_eq_nil_iff.mpr (fun a ha => by simp [hSside a ha]),
      List.filter_eq_self.mpr (fun a ha => by simp [hBside a ha])]
    simp
  have h3 : sumCosts ((tx + slip) / 100) (newS ++ newB)
      = (newS.map (fun tr => tr.value * ((tx + slip) / 100))).sum
        + (newB.map (fun tr => tr.value * ((tx + slip) / 100))).sum := by
    unfold sumCosts
    rw [List.map_append, List.sum_append]
  rw [h1, h2, h3]
  have hf4 : (fun tr : SimTrade => tr.value * (1 - (tx + slip) / 100))
      = (fun tr : SimTrade => tr.value - tr.value * ((tx + slip) / 100)) := by
    funext x
    ring
  have hf5 : (fun tr : SimTrade => tr.value * (1 + (tx + slip) / 100))
      = (fun tr : SimTrade => tr.value + tr.value * ((tx + slip) / 100)) := by
    funext x
    ring
  rw [hf4, hf5, sum_map_sub, sum_map_add]
  ring

/-- One BUY-phase iteration never overdraws: under a non-negative cost
rate, either the notional plus fees fits in cash, or the notional is
shrunk to `cash / costMultiplier` so the spend equals the whole cash. -/
theorem buyOne_cash_nonneg (pref : PriceType) (tx slip : ℚ) (md : MD)
    (date : Day) (tw : List (String × ℚ)) (st : PhaseState) (t : String)
    (hr0 : 0 ≤ tx + slip) (hc : 0 ≤ st.cash) :
    0 ≤ (buyOne pref tx slip md date tw st t).cash := by
  have hm : (0 : ℚ) < 1 + (tx + slip) / 100 := by linarith
  unfold buyOne
  by_cases hp : getExecutionPrice pref md t date ≤ 0
  · simpa [hp] using hc
  · by_cases hcond : alGet st.holdings t * getExecutionPrice pref md t date + 1
        < alGet tw t * st.nav
    · simp only [if_neg hp, if_pos hcond]
      set v0 := alGet tw t * st.nav
        - alGet st.holdings t * getExecutionPrice pref md t date with hv0
      by_cases hsh : st.cash < v0 + v0 * (1 + (tx + slip) / 100 - 1)
      · simp only [if_pos hsh]
        by_cases h1 : 1 < st.cash / (1 + (tx + slip) / 100)
        · simp only [if_pos h1]
          have : st.cash - (st.cash / (1 + (tx + slip) / 100)
              + st.cash / (1 + (tx + slip) / 100) * (1 + (tx + slip) / 100 - 1)) = 0 := by
            field_simp
            ring
          rw [this]
        · simpa [if_neg h1] using hc
      · simp only [if_neg hsh]
        by_cases h1 : 1 < v0
        · simp only [if_pos h1]
          push_neg at hsh
          linarith
        · simpa [if_neg h1] using hc
    · simpa [hp, hcond] using hc

/-- Cash can only grow during the SELL phase and cannot be overdrawn in
the BUY phase, so a rebalance execution keeps the cash balance
non-negative whenever the combined cost rate lies in [0%, 100%]. -/
theorem execRebalance_cash_nonneg (pref : PriceType) (tx slip : ℚ) (md : MD)
    (date : Day) (tw holdings0 : List (String × ℚ)) (cash0 nav0 : ℚ)
    (hr0 : 0 ≤ tx + slip) (hr1 : tx + slip ≤ 100) (hc : 0 ≤ cash0) :
    0 ≤ (execRebalance pref tx slip md date tw holdings0 cash0 nav0).cash := by
  unfold execRebalance
  apply foldl_preserve (fun s : PhaseState => 0 ≤ s.cash)
  · intro b a hb
    rcases buyOne_spec pref tx slip md date tw b a with heq | ⟨v, hv1, hvp, hcash, htr⟩
    · rw [heq]; exact hb
    · -- the buy phase never spends more than the cash at hand
      have := buyOne_cash_nonneg pref tx slip md date tw b a hr0 hb
      exact this
  · apply foldl_preserve (fun s : PhaseState => 0 ≤ s.cash)
    · intro b a hb
      rcases sellOne_spec pref tx slip md date tw b a with heq | ⟨v, hv1, hvp, hcash, htr⟩
      · rw [heq]; exact hb
      · rw [hcash]
        have hv0 : 0 ≤ v := by linarith
        have hrr : 0 ≤ 1 - (tx + slip) / 100 := by linarith
        nlinarith
    · exact hc

/-- A daily step can change cash only through a rebalance execution, so
it preserves non-negativity of the cash balance. -/
theorem dayStep_cash_nonneg (strat : Strategy) (symbols : List SymbolData)
    (md : MD) (sd simd : List Day) (bt pt : String) (bs : ℚ)
    (st : SimState) (ia : ℕ × Day)
    (hr0 : 0 ≤ strat.transactionCostPct + strat.slippagePct)
    (hr1 : strat.transactionCostPct + strat.slippagePct ≤ 100)
    (hc : 0 ≤ st.cash) :
    0 ≤ (dayStep strat symbols md sd simd bt pt bs st ia).cash := by
  have key : ∀ (b : Bool) (x y : ℚ), 0 ≤ x → 0 ≤ y → 0 ≤ (if b = true then x else y) := by
    intro b x y hx hy
    cases b
    · simpa using hy
    · simpa using hx
  unfold dayStep
  dsimp only
  exact key _ _ _ (execRebalance_cash_nonneg _ _ _ _ _ _ _ _ _ hr0 hr1 hc) hc

/-- The cash balance is non-negative after every prefix of the daily
loop, starting from the initial all-cash state. -/
theorem stateAfter_cash_nonneg (ctx : SimCtx) (k : ℕ)
    (hr0 : 0 ≤ ctx.strat.transactionCostPct + ctx.strat.slippagePct)
    (hr1 : ctx.strat.transactionCostPct + ctx.strat.slippagePct ≤ 100)
    (hcap : 0 ≤ ctx.strat.initialCapital) :
    0 ≤ (stateAfter ctx k).cash := by
  unfold stateAfter
  apply foldl_preserve (fun s : SimState => 0 ≤ s.cash)
  · intro b a hb
    exact dayStep_cash_nonneg _ _ _ _ _ _ _ _ b a hr0 hr1 hb
  · exact hcap

/-- C2: on every rebalance execution the cash afterwards equals the cash
before plus the gross sell notionals minus the gross buy notionals minus
the transaction costs charged on the execution's trades (equivalently:
plus net sell proceeds minus gross buy spends), and — for cost rates in
[0%, 100%] and a non-negative initial capital — the cash balance is
non-negative at every point of every run: within each execution phase
and after every simulated day. -/
theorem c2_cash_conservation_and_nonneg :
    (∀ (pref : PriceType) (tx slip : ℚ) (md : MD) (date : Day)
       (tw holdings0 : List (String × ℚ)) (cash0 nav0 : ℚ),
       ((execRebalance pref tx slip md date tw holdings0 cash0 nav0).cash
         = cash0
           + sumSide TradeSide.SELL
               (execRebalance pref tx slip md date tw holdings0 cash0 nav0).trades
           - sumSide TradeSide.BUY
               (execRebalance pref tx slip md date tw holdings0 cash0 nav0).trades
           - sumCosts ((tx + slip) / 100)
               (execRebalance pref tx slip md date tw holdings0 cash0 nav0).trades)
       ∧ (0 ≤ tx + slip → tx + slip ≤ 100 → 0 ≤ cash0 →
           0 ≤ (execRebalance pref tx slip md date tw holdings0 cash0 nav0).cash))
    ∧ (∀ ctx : SimCtx,
         0 ≤ ctx.strat.transactionCostPct + ctx.strat.slippagePct →
         ctx.strat.transactionCostPct + ctx.strat.slippagePct ≤ 100 →
         0 ≤ ctx.strat.initialCapital →
         ∀ k, 0 ≤ (stateAfter ctx k).cash) := by
  constructor
  · intro pref tx slip md date tw holdings0 cash0 nav0
    exact ⟨execRebalance_cash_eq pref tx slip md date tw holdings0 cash0 nav0,
      fun h0 h1 hc => execRebalance_cash_nonneg pref tx slip md date tw
        holdings0 cash0 nav0 h0 h1 hc⟩
  · intro ctx h0 h1 hcap k
    exact stateAfter_cash_nonneg ctx k h0 h1 hcap

/-- C4: in the BUY phase, when the desired buy notional times
`1 + costRate` exceeds the available cash, the notional is replaced by
exactly `availableCash / (1 + costRate)` — the buy is not skipped and
cash is not overdrawn: if the shrunk notional clears the $1 dust
threshold the trade executes with that exact notional and the spend
consumes the whole cash (ending cash 0); otherwise the state is
unchanged.  Moreover every trade the step appends has a resulting spend
`value · (1 + costRate)` strictly above $1. -/
theorem c4_buy_shrink_policy (pref : PriceType) (tx slip : ℚ) (md : MD)
    (date : Day) (tw : List (String × ℚ)) (st : PhaseState) (t : String)
    (h0 : 0 ≤ tx + slip)
    (hp : 0 < getExecutionPrice pref md t date)
    (hunder : alGet st.holdings t * getExecutionPrice pref md t date + 1
      < alGet tw t * st.nav)
    (hshrink : st.cash
      < (alGet tw t * st.nav - alGet st.holdings t * getExecutionPrice pref md t date)
        * (1 + (tx + slip) / 100)) :
    ((1 < st.cash / (1 + (tx + slip) / 100) →
        (buyOne pref tx slip md date tw st t).trades
          = st.trades ++ [⟨date, t, TradeSide.BUY,
              st.cash / (1 + (tx + slip) / 100),
              st.cash / (1 + (tx + slip) / 100) / getExecutionPrice pref md t date,
              getExecutionPrice pref md t date⟩]
        ∧ (buyOne pref tx slip md date tw st t).cash = 0)
     ∧ (¬ 1 < st.cash / (1 + (tx + slip) / 100) →
          buyOne pref tx slip md date tw st t = st))
    ∧ (∀ tr ∈ (buyOne pref tx slip md date tw st t).trades,
         tr ∈ st.trades ∨ 1 < tr.value * (1 + (tx + slip) / 100)) := by
  have hm : (0 : ℚ) < 1 + (tx + slip) / 100 := by linarith
  have hm1 : (1 : ℚ) ≤ 1 + (tx + slip) / 100 := by linarith
  unfold buyOne
  simp only [if_neg (not_le.mpr hp), if_pos hunder]
  have hsh : st.cash
      < (alGet tw t * st.nav - alGet st.holdings t * getExecutionPrice pref md t date)
        + (alGet tw t * st.nav - alGet st.holdings t * getExecutionPrice pref md t date)
          * (1 + (tx + slip) / 100 - 1) := by
    nlinarith [hshrink]
  simp only [if_pos hsh]
  by_cases h1 : 1 < st.cash / (1 + (tx + slip) / 100)
  · simp only [if_pos h1]
    have hzero : st.cash - (st.cash / (1 + (tx + slip) / 100)
        + st.cash / (1 + (tx + slip) / 100) * (1 + (tx + slip) / 100 - 1)) = 0 := by
      field_simp
      ring
    refine ⟨⟨fun _ => ⟨trivial, hzero⟩, fun hn => absurd h1 hn⟩, ?_⟩
    intro tr htr
    rcases List.mem_append.mp htr with h | h
    · exact Or.inl h
    · right
      rcases List.mem_singleton.mp h with rfl
      have hv : (0 : ℚ) < st.cash / (1 + (tx + slip) / 100) := by linarith
      nlinarith
  · simp only [if_neg h1]
    exact ⟨⟨fun hc => absurd hc h1, fun _ => trivial⟩,
      fun tr htr => Or.inl htr⟩

/-- Safe closes agree whenever the close components of the stored points
agree pointwise. -/
theorem getSafePrice_close_congr (md md' : MD) (t : String)
    (h : ∀ e : Day, (mdGet md' t e).map (fun p => p.close)
      = (mdGet md t e).map (fun p => p.close)) :
    ∀ e : Day, getSafePrice md' t e = getSafePrice md t e := by
  intro e
  unfold getSafePrice
  have he := h e
  cases h1 : mdGet md' t e with
  | none =>
    cases h2 : mdGet md t e with
    | none => rfl
    | some p => rw [h1, h2] at he; simp at he
  | some p' =>
    cases h2 : mdGet md t e with
    | none => rw [h1, h2] at he; simp at he
    | some p =>
      rw [h1, h2] at he
      simp only [Option.map_some', Option.some_inj] at he
      simp [he]

/-- The moving-average signal depends on the stored data only through
close prices: replacing opens/highs/lows arbitrarily leaves it
unchanged. -/
theorem getMA_close_only (md md' : MD) (sd : List Day) (primary : String)
    (period : ℕ) (d : Day)
    (h : ∀ e : Day, (mdGet md' primary e).map (fun p => p.close)
      = (mdGet md primary e).map (fun p => p.close)) :
    getMA md' sd primary period d = getMA md sd primary period d := by
  have hsp := getSafePrice_close_congr md md' primary h
  unfold getMA
  cases hidx : sd.findIdx? (fun x => x = d) with
  | none => rfl
  | some idx =>
    by_cases hlt : idx < period
    · simp [hlt]
    · simp only [hlt, if_false]
      have hmap : (maWindow sd idx period).map (getSafePrice md' primary)
          = (maWindow sd idx period).map (getSafePrice md primary) :=
        List.map_congr_left fun x _ => hsp x
      rw [hmap]

/-- C7 (amended): every trade of a rebalance execution — sell phase and
buy phase alike — carries the execution-day date and the
`getExecutionPrice` of its ticker for the configured price preference;
`getExecutionPrice` maps OPEN to the open (falling back to the close for
a non-positive open) and AVG to the high/low/close mean, while CLOSE,
HIGH and LOW all yield the close; and signals read only close prices. -/
theorem c7_execution_price_usage :
    (∀ (pref : PriceType) (tx slip : ℚ) (md : MD) (date : Day)
       (tw holdings0 : List (String × ℚ)) (cash0 nav0 : ℚ),
       ∀ tr ∈ (execRebalance pref tx slip md date tw holdings0 cash0 nav0).trades,
         tr.date = date ∧ tr.price = getExecutionPrice pref md tr.ticker date)
    ∧ (∀ (pref : PriceType) (md : MD) (t : String) (d : Day) (p : MarketDataPoint),
        mdGet md t d = some p →
        ((pref = PriceType.OPEN →
           getExecutionPrice pref md t d = if 0 < p.open_ then p.open_ else p.close)
         ∧ (pref = PriceType.AVG →
             getExecutionPrice pref md t d = (p.high + p.low + p.close) / 3)
         ∧ (pref = PriceType.CLOSE ∨ pref = PriceType.HIGH ∨ pref = PriceType.LOW →
             getExecutionPrice pref md t d = p.close)))
    ∧ (∀ (md md' : MD) (sd : List Day) (primary : String) (period : ℕ) (d : Day),
        (∀ e : Day, (mdGet md' primary e).map (fun p => p.close)
          = (mdGet md primary e).map (fun p => p.close)) →
        getMA md' sd primary period d = getMA md sd primary period d) := by
  refine ⟨?_, ?_, fun md md' sd primary period d h => getMA_close_only md md' sd primary period d h⟩
  · intro pref tx slip md date tw holdings0 cash0 nav0 tr htr
    unfold execRebalance at htr
    obtain ⟨newS, hts, hcs, hps⟩ := sellPhase_spec pref tx slip md date tw
      (holdings0.map (fun p => p.1)) ⟨holdings0, cash0, nav0, []⟩
    obtain ⟨newB, htb, hcb, hpb⟩ := buyPhase_spec pref tx slip md date tw
      (tw.map (fun p => p.1))
      ((holdings0.map (fun p => p.1)).foldl (sellOne pref tx slip md date tw)
        ⟨holdings0, cash0, nav0, []⟩)
    rw [htb, hts] at htr
    simp only [List.nil_append] at htr
    rcases List.mem_append.mp htr with h | h
    · exact ⟨(hps tr h).2.2.1, (hps tr h).2.2.2.2⟩
    · exact ⟨(hpb tr h).2.2.1, (hpb tr h).2.2.2.2⟩
  · intro pref md t d p hmd
    unfold getExecutionPrice
    rw [hmd]
    refine ⟨?_, ?_, ?_⟩
    · intro hpref
      subst hpref
      simp
    · intro hpref
      subst hpref
      simp
    · intro hpref
      rcases hpref with rfl | rfl | rfl <;> simp

/-- C3 (amended): on a day whose active-rule indicators are all null
(insufficient warmup history), the regime evaluator produces a risk-on
weight of exactly 0 — the accumulator restarts at 0 each day and the
null-gated contributions add nothing.  That day records 0% risk-on
(100% risk-off); nothing of the previous day's weight is held, and there
is no 100%-risk-on initial default. -/
theorem c3_warmup_weight_is_zero (strat : Strategy) (md : MD) (sd : List Day)
    (primary : String) (d : Day) (pPrev : ℚ)
    (h : ruleIndicatorsNull strat md sd primary d) :
    computeRiskOnW strat md sd primary d pPrev = 0 := by
  simp only [ruleIndicatorsNull] at h
  simp only [computeRiskOnW]
  by_cases h4 : activeRuleIdOf strat = "rule_4"
  · simp only [if_pos h4] at h ⊢
    obtain ⟨ha, hb, hc⟩ := h
    simp [ha, hb, hc, maGate, momGate]
  · by_cases h3 : activeRuleIdOf strat = "rule_3"
    · simp only [if_neg h4, if_pos h3] at h ⊢
      obtain ⟨ha, hb⟩ := h
      simp [ha, hb, maGate]
    · by_cases h1 : activeRuleIdOf strat = "rule_1"
      · simp only [if_neg h4, if_neg h3, if_pos h1] at h ⊢
        obtain ⟨ha, hb, hc⟩ := h
        simp [ha, hb, hc, maGate]
      · simp only [if_neg h4, if_neg h3, if_neg h1] at h ⊢
        obtain ⟨ha, hb, hc⟩ := h
        simp [ha, hb, hc, maGate]

/-- A gated contribution `if c then x else 0` with `x·100` integral keeps
`·100` integral. -/
theorem exists_int_ite_mul100 (c : Prop) [Decidable c] (x : ℚ) (z : ℤ)
    (hx : x * 100 = (z : ℚ)) :
    ∃ m : ℤ, (if c then x else 0) * 100 = (m : ℚ) := by
  by_cases hc : c
  · exact ⟨z, by simp [hc, hx]⟩
  · exact ⟨0, by simp [hc]⟩

/-- Sums keep `·100` integral. -/
theorem exists_int_mul100_add {a b : ℚ}
    (ha : ∃ z : ℤ, a * 100 = (z : ℚ)) (hb : ∃ z : ℤ, b * 100 = (z : ℚ)) :
    ∃ z : ℤ, (a + b) * 100 = (z : ℚ) := by
  obtain ⟨x, hx⟩ := ha
  obtain ⟨y, hy⟩ := hb
  exact ⟨x + y, by push_cast [add_mul]; rw [hx, hy]⟩

/-- Every rule variant sums contributions from
{0.4, 0.3, 0.6, 0.5, 0.25}, so the day's risk-on weight times 100 is an
integer (in fact a multiple of 5). -/
theorem computeRiskOnW_int (strat : Strategy) (md : MD) (sd : List Day)
    (primary : String) (d : Day) (pPrev : ℚ) :
    ∃ z : ℤ, computeRiskOnW strat md sd primary d pPrev * 100 = (z : ℚ) := by
  unfold computeRiskOnW
  by_cases h4 : activeRuleIdOf strat = "rule_4"
  · simp only [if_pos h4]
    exact exists_int_mul100_add (exists_int_mul100_add
      (exists_int_ite_mul100 _ _ 40 (by norm_num))
      (exists_int_ite_mul100 _ _ 30 (by norm_num)))
      (exists_int_ite_mul100 _ _ 30 (by norm_num))
  · by_cases h3 : activeRuleIdOf strat = "rule_3"
    · simp only [if_neg h4, if_pos h3]
      exact exists_int_mul100_add
        (exists_int_ite_mul100 _ _ 60 (by norm_num))
        (exists_int_ite_mul100 _ _ 40 (by norm_num))
    · by_cases h1 : activeRuleIdOf strat = "rule_1"
      · simp only [if_neg h4, if_neg h3, if_pos h1]
        exact exists_int_mul100_add (exists_int_mul100_add
          (exists_int_ite_mul100 _ _ 50 (by norm_num))
          (exists_int_ite_mul100 _ _ 25 (by norm_num)))
          (exists_int_ite_mul100 _ _ 25 (by norm_num))
      · simp only [if_neg h4, if_neg h3, if_neg h1]
        exact exists_int_mul100_add (exists_int_mul100_add
          (exists_int_ite_mul100 _ _ 25 (by norm_num))
          (exists_int_ite_mul100 _ _ 50 (by norm_num)))
          (exists_int_ite_mul100 _ _ 25 (by norm_num))

/-- Rounding to two decimals is exact on the engine's weight percentages,
so the recorded pair always closes to 100. -/
theorem toFixed2_pair (w : ℚ) (h : ∃ z : ℤ, w * 100 = (z : ℚ)) :
    toFixed2 (w * 100) + toFixed2 ((1 - w) * 100) = 100 := by
  obtain ⟨z, hz⟩ := h
  have h2 : (1 - w) * 100 = ((100 - z : ℤ) : ℚ) := by
    push_cast
    rw [sub_mul]
    rw [hz]
    ring
  unfold toFixed2
  rw [hz, h2]
  rw [show ((z : ℚ)) * 100 = ((z * 100 : ℤ) : ℚ) by push_cast; ring]
  rw [show (((100 - z : ℤ) : ℚ)) * 100 = (((100 - z) * 100 : ℤ) : ℚ) by push_cast; ring]
  rw [round_intCast, round_intCast]
  push_cast
  ring

/-- A daily step appends exactly one record, whose weight fields are the
two-decimal roundings of the day's weight pair. -/
theorem dayStep_weight_closure (strat : Strategy) (symbols : List SymbolData)
    (md : MD) (sd simd : List Day) (bt pt : String) (bs : ℚ)
    (st : SimState) (ia : ℕ × Day)
    (h : ∀ rec ∈ st.series, rec.riskOn + rec.riskOff = 100) :
    ∀ rec ∈ (dayStep strat symbols md sd simd bt pt bs st ia).series,
      rec.riskOn + rec.riskOff = 100 := by
  unfold dayStep
  dsimp only
  intro rec hrec
  rcases List.mem_append.mp hrec with hm | hm
  · exact h rec hm
  · rcases List.mem_singleton.mp hm with rfl
    exact toFixed2_pair _ (computeRiskOnW_int strat md sd pt ia.2 _)

/-- A successful `runSimCore` result is exactly the final loop state's
output triple. -/
theorem runSimCore_ok_eq (ctx : SimCtx) (r : DetailedSimResult)
    (h : runSimCore ctx = Except.ok r) :
    r = ⟨(stateAfter ctx ((simDatesOf ctx).enum.length)).series,
         (stateAfter ctx ((simDatesOf ctx).enum.length)).trades,
         (stateAfter ctx ((simDatesOf ctx).enum.length)).regimeSwitches⟩ := by
  unfold runSimCore at h
  cases hf : (allTickersOf ctx).find? (fun t => ((mdFind ctx.md t).getD []).isEmpty) with
  | some t =>
    rw [hf] at h
    exact absurd h (by simp)
  | none =>
    rw [hf] at h
    by_cases hl : (simDatesOf ctx).length < 5
    · rw [if_pos hl] at h
      exact absurd h (by simp)
    · rw [if_neg hl] at h
      simp only [Except.ok.injEq] at h
      rw [← h]
      unfold stateAfter
      rw [List.take_of_length_le (le_refl _)]

/-- C8: every record of every completed run closes its weights —
`riskOn + riskOff = 100` exactly in the rational model (the percentages
are multiples of 5, on which the two-decimal rounding is exact). -/
theorem c8_weight_closure (ctx : SimCtx) (r : DetailedSimResult)
    (h : runSimCore ctx = Except.ok r) :
    ∀ rec ∈ r.series, rec.riskOn + rec.riskOff = 100 := by
  rw [runSimCore_ok_eq ctx r h]
  dsimp only
  unfold stateAfter
  rw [List.take_of_length_le (le_refl _)]
  apply foldl_preserve
    (fun st : SimState => ∀ rec ∈ st.series, rec.riskOn + rec.riskOff = 100)
  · intro b a hb
    exact dayStep_weight_closure _ _ _ _ _ _ _ _ b a hb
  · intro rec hrec
    simp [initState] at hrec

/-- Set-style deduplication yields a list without duplicates. -/
theorem jsDedup_nodup {α : Type} [DecidableEq α] (l : List α) :
    (jsDedup l).Nodup := by
  unfold jsDedup
  apply foldl_preserve (fun acc : List α => acc.Nodup)
  · intro acc a hacc
    by_cases hmem : a ∈ acc
    · simpa [hmem] using hacc
    · simp only [if_neg hmem]
      rw [← List.concat_eq_append]
      exact hacc.concat hmem
  · exact List.nodup_nil

/-- The unified date axis is strictly sorted: ascending with no
duplicates. -/
theorem sortedDatesOf_sorted (ctx : SimCtx) :
    List.Sorted (· < ·) (sortedDatesOf ctx) := by
  unfold sortedDatesOf
  have hsort := List.sorted_insertionSort (· ≤ ·)
    (jsDedup ((allTickersOf ctx).flatMap
      (fun t => ((mdFind ctx.md t).getD []).map (fun p => p.1))))
  have hnd : (List.insertionSort (· ≤ ·)
      (jsDedup ((allTickersOf ctx).flatMap
        (fun t => ((mdFind ctx.md t).getD []).map (fun p => p.1))))).Nodup :=
    (List.Perm.nodup_iff (List.perm_insertionSort _ _)).mpr (jsDedup_nodup _)
  exact hsort.lt_of_le hnd

/-- The aligned window, a contiguous slice of the axis, is strictly
sorted as well. -/
theorem simDatesOf_sorted (ctx : SimCtx) :
    List.Sorted (· < ·) (simDatesOf ctx) := by
  unfold simDatesOf
  exact List.Pairwise.sublist
    ((List.drop_sublist _ _).trans (List.take_sublist _ _))
    (sortedDatesOf_sorted ctx)

/-- Each daily step appends exactly one record carrying that day's date. -/
theorem dayStep_series_dates (strat : Strategy) (symbols : List SymbolData)
    (md : MD) (sd simd : List Day) (bt pt : String) (bs : ℚ)
    (st : SimState) (ia : ℕ × Day) :
    (dayStep strat symbols md sd simd bt pt bs st ia).series.map
        (fun rec => rec.date)
      = st.series.map (fun rec => rec.date) ++ [ia.2] := by
  unfold dayStep
  dsimp only
  rw [List.map_append]
  rfl

/-- Folding the daily step over an indexed date list appends one record
per date, in order. -/
theorem foldl_series_dates (strat : Strategy) (symbols : List SymbolData)
    (md : MD) (sd simd : List Day) (bt pt : String) (bs : ℚ) :
    ∀ (l : List (ℕ × Day)) (st : SimState),
      ((l.foldl (dayStep strat symbols md sd simd bt pt bs) st).series.map
          (fun rec => rec.date))
        = st.series.map (fun rec => rec.date) ++ l.map Prod.snd := by
  intro l
  induction l with
  | nil => intro st; simp
  | cons a lt ih =>
    intro st
    rw [List.foldl_cons, ih, dayStep_series_dates]
    simp

/-- C10: a completed run emits exactly one record per date of the aligned
simulation window, in the window's order, and that window is strictly
ascending — no date is skipped, duplicated or reordered. -/
theorem c10_one_record_per_day (ctx : SimCtx) (r : DetailedSimResult)
    (h : runSimCore ctx = Except.ok r) :
    r.series.map (fun rec => rec.date) = simDatesOf ctx
    ∧ List.Sorted (· < ·) (simDatesOf ctx) := by
  refine ⟨?_, simDatesOf_sorted ctx⟩
  rw [runSimCore_ok_eq ctx r h]
  dsimp only
  unfold stateAfter
  rw [List.take_of_length_le (le_refl _)]
  rw [show dayStepC ctx = dayStep ctx.strat ctx.symbols ctx.md (sortedDatesOf ctx)
      (simDatesOf ctx) (benchmarkTickerOf ctx.symbols ctx.strat)
      (primaryTickerOf ctx) (bmStartOf ctx) from rfl]
  rw [foldl_series_dates]
  simp [initState, List.enum_map_snd]

/-- Every date in the `getMA` window lies strictly before the as-of date
(on a strictly sorted axis, with enough history). -/
theorem maWindow_mem_lt (sd : List Day) (d : Day) (idx period : ℕ)
    (hidx : sd.findIdx? (fun x => x = d) = some idx)
    (hper : period ≤ idx) (hsort : List.Sorted (· < ·) sd) :
    ∀ x ∈ maWindow sd idx period, x < d := by
  obtain ⟨hlen, hpidx, _⟩ := List.findIdx?_eq_some_iff_getElem.mp hidx
  have hd : sd[idx] = d := by simpa using hpidx
  intro x hx
  rcases List.mem_map.mp hx with ⟨i, hi, rfl⟩
  have hi' : i < period := List.mem_range.mp hi
  have hlt : idx - (i + 1) < idx := by omega
  have hbound : idx - (i + 1) < sd.length := by omega
  have hgd : sd.getD (idx - (i + 1)) 0 = sd[idx - (i + 1)] := by
    simp [List.getD_eq_getElem?_getD, List.getElem?_eq_getElem hbound]
  have hrel := @List.Sorted.rel_get_of_lt Day (· < ·) sd hsort
    ⟨idx - (i + 1), hbound⟩ ⟨idx, hlen⟩ (Fin.mk_lt_mk.mpr hlt)
  simp only [List.get_eq_getElem] at hrel
  rw [hgd, ← hd]
  exact hrel

/-- C5 (amended): `getMA` reads exactly the `period` unified-axis dates
immediately before the as-of date.  When all of them carry a valid
(positive) safe close for the primary ticker it returns their plain
arithmetic mean; it returns null when fewer than `period` axis dates
precede the as-of date, and also null as soon as any single window date
lacks a valid close — it does not skip invalid days and reach further
back.  On a strictly sorted axis the window lies strictly before the
as-of date, and the value is invariant under any change of the data at
or after the as-of date (no lookahead). -/
theorem c5_getMA_characterization (md : MD) (sd : List Day) (primary : String)
    (period : ℕ) (d : Day) (idx : ℕ)
    (hidx : sd.findIdx? (fun x => x = d) = some idx) :
    (¬ idx < period →
      (∀ x ∈ maWindow sd idx period, 0 < getSafePrice md primary x) →
      getMA md sd primary period d
        = some (((maWindow sd idx period).map (getSafePrice md primary)).sum
            / (period : ℚ)))
    ∧ (idx < period → getMA md sd primary period d = none)
    ∧ (¬ idx < period →
      (∃ x ∈ maWindow sd idx period, getSafePrice md primary x ≤ 0) →
      getMA md sd primary period d = none)
    ∧ (List.Sorted (· < ·) sd → period ≤ idx →
      ∀ x ∈ maWindow sd idx period, x < d)
    ∧ (List.Sorted (· < ·) sd → period ≤ idx →
      ∀ md' : MD, (∀ e : Day, e < d → mdGet md' primary e = mdGet md primary e) →
      getMA md' sd primary period d = getMA md sd primary period d) := by
  have hlen : (maWindow sd idx period).length = period := by
    unfold maWindow
    rw [List.length_map, List.length_range]
  refine ⟨?_, ?_, ?_, ?_, ?_⟩
  · intro hge hall
    unfold getMA
    rw [hidx]
    dsimp only
    rw [if_neg hge]
    have hfe : ((maWindow sd idx period).map (getSafePrice md primary)).filter
        (fun p => 0 < p) = (maWindow sd idx period).map (getSafePrice md primary) := by
      apply List.filter_eq_self.mpr
      intro a ha
      rcases List.mem_map.mp ha with ⟨x, hx, rfl⟩
      simpa using hall x hx
    rw [hfe, List.length_map, hlen, if_pos rfl]
  · intro hlt
    unfold getMA
    rw [hidx]
    dsimp only
    rw [if_pos hlt]
  · intro hge hex
    unfold getMA
    rw [hidx]
    dsimp only
    rw [if_neg hge]
    obtain ⟨x, hx, hinv⟩ := hex
    have hsub : List.Sublist
        (((maWindow sd idx period).map (getSafePrice md primary)).filter
          (fun p => 0 < p))
        ((maWindow sd idx period).map (getSafePrice md primary)) :=
      List.filter_sublist _
    have hne : ((maWindow sd idx period).map (getSafePrice md primary)).filter
        (fun p => 0 < p) ≠ (maWindow sd idx period).map (getSafePrice md primary) := by
      intro heq
      have hall := List.filter_eq_self.mp heq (getSafePrice md primary x)
        (List.mem_map_of_mem _ hx)
      simp at hall
      linarith
    rw [if_neg]
    intro hcnt
    exact hne (hsub.eq_of_length (by rw [List.length_map, hlen]; exact hcnt))
  · intro hsort hper
    exact maWindow_mem_lt sd d idx period hidx hper hsort
  · intro hsort hper md' hagree
    have hwin := maWindow_mem_lt sd d idx period hidx hper hsort
    unfold getMA
    rw [hidx]
    dsimp only
    rw [if_neg (not_lt.mpr hper), if_neg (not_lt.mpr hper)]
    have hmap : (maWindow sd idx period).map (getSafePrice md' primary)
        = (maWindow sd idx period).map (getSafePrice md primary) := by
      apply List.map_congr_left
      intro x hx
      unfold getSafePrice
      rw [hagree x (hwin x hx)]
    rw [hmap]

/-- C9: the NAV recorded for a day is always finite — when the raw
mark-to-market sum (cash plus holdings times last-known safe closes,
computed in the non-finite-aware `JsNum` model) evaluates to NaN or an
infinity, the guard replaces it by exactly the strategy's
`initialCapital`; a finite raw NAV passes through unchanged. -/
theorem c9_nav_guard (init : ℚ) (md : MDJ) (d : Day) (cash : JsNum)
    (holdings : List (String × JsNum)) :
    (navGuardJ init (rawNavJ md d cash holdings)).isFiniteJ = true
    ∧ ((rawNavJ md d cash holdings).isFiniteJ = false →
        navGuardJ init (rawNavJ md d cash holdings) = JsNum.fin init)
    ∧ ((rawNavJ md d cash holdings).isFiniteJ = true →
        navGuardJ init (rawNavJ md d cash holdings) = rawNavJ md d cash holdings) := by
  unfold navGuardJ
  by_cases h : (rawNavJ md d cash holdings).isFiniteJ = true
  · refine ⟨?_, ?_, fun _ => by rw [if_pos h]⟩
    · rw [if_pos h]
      exact h
    · intro hf
      rw [hf] at h
      exact absurd h (by simp)
  · have hf : (rawNavJ md d cash holdings).isFiniteJ = false :=
      Bool.eq_false_iff.mpr h
    refine ⟨?_, fun _ => by rw [if_neg h], ?_⟩
    · rw [if_neg h]
      rfl
    · intro ht
      rw [ht] at hf
      exact absurd hf (by simp)

/-- Membership is preserved by set-style deduplication. -/
theorem jsDedup_mem {α : Type} [DecidableEq α] (l : List α) (x : α) :
    x ∈ jsDedup l ↔ x ∈ l := by
  have aux : ∀ (l acc : List α) (x : α),
      (x ∈ l.foldl (fun acc a => if a ∈ acc then acc else acc ++ [a]) acc
        ↔ x ∈ acc ∨ x ∈ l) := by
    intro l
    induction l with
    | nil => intro acc x; simp
    | cons a lt ih =>
      intro acc x
      rw [List.foldl_cons, ih]
      by_cases hmem : a ∈ acc
      · rw [if_pos hmem]
        constructor
        · rintro (h | h)
          · exact Or.inl h
          · exact Or.inr (List.mem_cons_of_mem a h)
        · rintro (h | h)
          · exact Or.inl h
          · rcases List.mem_cons.mp h with rfl | h2
            · exact Or.inl hmem
            · exact Or.inr h2
      · rw [if_neg hmem]
        constructor
        · rintro (h | h)
          · rcases List.mem_append.mp h with h1 | h1
            · exact Or.inl h1
            · rcases List.mem_singleton.mp h1 with rfl
              exact Or.inr (List.mem_cons_self _ _)
          · exact Or.inr (List.mem_cons_of_mem a h)
        · rintro (h | h)
          · exact Or.inl (List.mem_append.mpr (Or.inl h))
          · rcases List.mem_cons.mp h with rfl | h2
            · exact Or.inl (List.mem_append.mpr (Or.inr (List.mem_singleton.mpr rfl)))
            · exact Or.inr h2
  unfold jsDedup
  rw [aux l [] x]
  simp

/-- The benchmark ticker is never the empty string (a blank symbol falls
back to SPY). -/
theorem benchmarkTickerOf_ne_empty (symbols : List SymbolData) (strat : Strategy) :
    benchmarkTickerOf symbols strat ≠ "" := by
  unfold benchmarkTickerOf
  cases symbols.find? (fun s => s.id = strat.benchmarkSymbolId) with
  | none => simp
  | some s =>
    by_cases h : s.ticker = ""
    · simp [h]
    · simp [h]

/-- The benchmark ticker is always among the required tickers. -/
theorem benchmark_mem_allTickersOf (ctx : SimCtx) :
    benchmarkTickerOf ctx.symbols ctx.strat ∈ allTickersOf ctx := by
  unfold allTickersOf
  apply List.mem_filter.mpr
  constructor
  · exact (jsDedup_mem _ _).mpr (List.mem_cons_self _ _)
  · simpa using benchmarkTickerOf_ne_empty ctx.symbols ctx.strat

/-- A date a ticker has a point at occurs among that ticker's stored
dates. -/
theorem mdHas_mem_dates (md : MD) (t : String) (e : Day)
    (h : mdHas md t e = true) :
    e ∈ ((mdFind md t).getD []).map (fun p => p.1) := by
  unfold mdHas mdGet at h
  cases hf : mdFind md t with
  | none => rw [hf] at h; simp at h
  | some l =>
    rw [hf] at h
    dsimp only at h
    cases hfind : l.find? (fun p => p.1 = e) with
    | none => rw [hfind] at h; simp at h
    | some pr =>
      have hmem := List.mem_of_find?_eq_some hfind
      have hpred := List.find?_some hfind
      simp only [decide_eq_true_eq] at hpred
      simp only [Option.getD_some]
      exact List.mem_map.mpr ⟨pr, hmem, hpred⟩

/-- Any date on which every required ticker has a data point lies on the
unified date axis. -/
theorem allHave_mem_sortedDatesOf (ctx : SimCtx) (e : Day)
    (h : allHave ctx e = true) : e ∈ sortedDatesOf ctx := by
  have hbm := benchmark_mem_allTickersOf ctx
  have hhas : mdHas ctx.md (benchmarkTickerOf ctx.symbols ctx.strat) e = true := by
    unfold allHave at h
    exact List.all_eq_true.mp h _ hbm
  have hq := mdHas_mem_dates ctx.md _ e hhas
  unfold sortedDatesOf
  apply (List.Perm.mem_iff (List.perm_insertionSort _ _)).mpr
  apply (jsDedup_mem _ _).mpr
  exact List.mem_flatMap.mpr ⟨_, hbm, hq⟩

/-- With the feasible index found, and a requested start no later than
the feasible date, the computed start index is exactly the feasible
index (the clamp `sIdx = max(sIdx, firstCommonIdx)` in action). -/
theorem sIdxOf_eq (ctx : SimCtx) (i : ℕ)
    (hfound : (sortedDatesOf ctx).findIdx? (allHave ctx) = some i)
    (hstart : ∀ s, ctx.startDate = some s → s ≤ (sortedDatesOf ctx).getD i 0) :
    sIdxOf ctx = (i : ℤ) := by
  obtain ⟨hlen, hpi, hmin⟩ := List.findIdx?_eq_some_iff_getElem.mp hfound
  have hfc : firstCommonIdxOf ctx = i := by
    unfold firstCommonIdxOf
    rw [hfound]
  unfold sIdxOf sIdxRawOf
  cases hsd : ctx.startDate with
  | none =>
    rw [hfc]
    simp
  | some s =>
    have hs := hstart s hsd
    have hgd : (sortedDatesOf ctx).getD i 0 = (sortedDatesOf ctx)[i] := by
      simp [List.getD_eq_getElem?_getD, List.getElem?_eq_getElem hlen]
    rw [hgd] at hs
    have hex : ∃ x, x ∈ sortedDatesOf ctx ∧ decide (s ≤ x) = true :=
      ⟨(sortedDatesOf ctx)[i], List.getElem_mem hlen, by simpa using hs⟩
    have hj := List.findIdx?_eq_some_of_exists hex
    set j := (sortedDatesOf ctx).findIdx (fun x => decide (s ≤ x)) with hjdef
    obtain ⟨hjlen, hpj, hjmin⟩ := List.findIdx?_eq_some_iff_getElem.mp hj
    have hji : j ≤ i := by
      by_contra hgt
      push_neg at hgt
      exact absurd (by simpa using hs) (by simpa using hjmin i hgt)
    dsimp only
    rw [hj, hfc]
    dsimp only
    rcases lt_or_eq_of_le hji with hlt | heq
    · rw [if_pos (by exact_mod_cast hlt)]
    · rw [if_neg (by rw [heq]; exact lt_irrefl _)]
      exact_mod_cast heq

/-- C6: provided a date exists on which every required ticker has a data
point, and the requested start (if any) is no later than the earliest
such date, the first simulated date of a non-degenerate window is
exactly that earliest all-tickers date: the feasible start.  The
feasible date itself carries data for every required ticker, and no
earlier date does (it is minimal among all such dates). -/
theorem c6_feasible_start (ctx : SimCtx) (i : ℕ)
    (hfound : (sortedDatesOf ctx).findIdx? (allHave ctx) = some i)
    (hstart : ∀ s, ctx.startDate = some s → s ≤ (sortedDatesOf ctx).getD i 0)
    (hwin : simDatesOf ctx ≠ []) :
    (simDatesOf ctx).head? = some ((sortedDatesOf ctx).getD i 0)
    ∧ allHave ctx ((sortedDatesOf ctx).getD i 0) = true
    ∧ ∀ e : Day, allHave ctx e = true → (sortedDatesOf ctx).getD i 0 ≤ e := by
  obtain ⟨hlen, hpi, hmin⟩ := List.findIdx?_eq_some_iff_getElem.mp hfound
  have hgd : (sortedDatesOf ctx).getD i 0 = (sortedDatesOf ctx)[i] := by
    simp [List.getD_eq_getElem?_getD, List.getElem?_eq_getElem hlen]
  have hsi := sIdxOf_eq ctx i hfound hstart
  have htN : ((i : ℤ)).toNat = i := Int.toNat_natCast i
  refine ⟨?_, ?_, ?_⟩
  · unfold simDatesOf at hwin ⊢
    rw [hsi, htN] at hwin ⊢
    have hltk : i < (((sortedDatesOf ctx).take (eIdxOf ctx + 1).toNat)).length := by
      by_contra hle
      push_neg at hle
      exact hwin (List.drop_eq_nil_of_le hle)
    rw [List.drop_eq_getElem_cons hltk]
    have hiE : i < (eIdxOf ctx + 1).toNat := by
      have h' := hltk
      rw [List.length_take] at h'
      exact lt_of_lt_of_le h' (min_le_left _ _)
    have hel : ((sortedDatesOf ctx).take (eIdxOf ctx + 1).toNat).get ⟨i, hltk⟩
        = (sortedDatesOf ctx)[i] := by
      have h2 := @List.getElem?_take_of_lt Day (sortedDatesOf ctx)
        ((eIdxOf ctx + 1).toNat) i hiE
      rw [List.getElem?_eq_getElem hltk, List.getElem?_eq_getElem hlen] at h2
      exact Option.some.inj h2
    rw [List.head?_cons, hgd]
    simp only [List.get_eq_getElem] at hel
    simp [hel]
  · rw [hgd]
    exact hpi
  · intro e he
    have hmem := allHave_mem_sortedDatesOf ctx e he
    obtain ⟨j, hjl, hje⟩ := List.getElem_of_mem hmem
    have hij : i ≤ j := by
      by_contra hgt
      push_neg at hgt
      have hnp := hmin j hgt
      rw [hje] at hnp
      exact absurd he (by simpa using hnp)
    rw [hgd, ← hje]
    rcases eq_or_lt_of_le hij with heq | hlt
    · subst heq
      exact le_refl _
    · have hrel := @List.Sorted.rel_get_of_lt Day (· < ·) (sortedDatesOf ctx)
        (sortedDatesOf_sorted ctx) ⟨i, hlen⟩ ⟨j, hjl⟩ (Fin.mk_lt_mk.mpr hlt)
      simp only [List.get_eq_getElem] at hrel
      exact le_of_lt hrel

section ConcreteEvaluation

attribute [local semireducible] Rat.add Rat.mul Rat.inv Rat.sub Rat.ofScientific

/-- C3 counterexample: in the `ctxW` run every indicator of the active
rule (rule_1: MA50/MA75/MA100) is null on day 0, yet the recorded
risk-on weight of that day is 0 percent, not the claimed initial default
of 100 percent risk-on. -/
theorem c3_counterexample :
    ruleIndicatorsNull stratW mdW (sortedDatesOf ctxW) (primaryTickerOf ctxW) 0
    ∧ firstRiskOn (runSimCore ctxW) = some 0
    ∧ firstRiskOn (runSimCore ctxW) ≠ some 100 := by
  refine ⟨by decide, by decide, by decide⟩

/-- C5 counterexample: with two axis dates immediately before the as-of
date of which one has an unusable (zero) close, `getMA` returns null even
though the history holds more than `period` valid closes strictly before
the as-of date, whose most-recent-two mean the claim (and
`specMovingAverage`) would return as 13. -/
theorem c5_counterexample :
    getMA mdC5 sdC5 "P" 2 5 = none
    ∧ specMovingAverage mdC5 "P" 2 5 = some 13
    ∧ getMA mdC5 sdC5 "P" 2 5 ≠ specMovingAverage mdC5 "P" 2 5 := by
  refine ⟨by decide, by decide, by decide⟩

/-- C7 counterexample: with the `HIGH` price preference the engine
executes at the close (3), not at the bar's high (5) selected by the
spec's price-field list. -/
theorem c7_counterexample :
    getExecutionPrice PriceType.HIGH mdC7 "A" 0 = ptC7.close
    ∧ specSelectPrice PriceType.HIGH ptC7 = ptC7.high
    ∧ getExecutionPrice PriceType.HIGH mdC7 "A" 0
        ≠ specSelectPrice PriceType.HIGH ptC7 := by
  refine ⟨by decide, by decide, by decide⟩

/-- Witness for the amended C3 theorem at the concrete warmup run: all
rule_1 indicators are null on day 0 of `ctxW` and the computed weight is
0 there. -/
theorem c3_warmup_weight_is_zero_witness :
    ruleIndicatorsNull stratW mdW (sortedDatesOf ctxW) (primaryTickerOf ctxW) 0
    ∧ computeRiskOnW stratW mdW (sortedDatesOf ctxW) (primaryTickerOf ctxW) 0 10 = 0 :=
  ⟨by decide,
   c3_warmup_weight_is_zero stratW mdW (sortedDatesOf ctxW) (primaryTickerOf ctxW)
     0 10 (by decide)⟩

/-- Witness for the C2 theorem: a concrete rebalance execution and a
concrete three-day prefix of the witness run both keep cash
non-negative. -/
theorem c2_cash_conservation_and_nonneg_witness :
    (0 : ℚ) ≤ (execRebalance PriceType.CLOSE 0 0 mdW 0 [("BBB", 1)] [] 10000 10000).cash
    ∧ (0 : ℚ) ≤ (stateAfter ctxW 3).cash :=
  ⟨(c2_cash_conservation_and_nonneg.1 PriceType.CLOSE 0 0 mdW 0 [("BBB", 1)]
      [] 10000 10000).2 (by norm_num) (by norm_num) (by norm_num),
   c2_cash_conservation_and_nonneg.2 ctxW (by decide) (by decide) (by decide) 3⟩

/-- Witness for the C4 theorem: with $50 of cash against a $1000 desired
buy at zero cost rate, the shrunk buy spends the whole cash, ending at
exactly 0. -/
theorem c4_buy_shrink_policy_witness :
    (buyOne PriceType.CLOSE 0 0 mdW 0 [("BBB", 1)]
      ⟨[], 50, 1000, []⟩ "BBB").cash = 0 :=
  ((c4_buy_shrink_policy PriceType.CLOSE 0 0 mdW 0 [("BBB", 1)]
      ⟨[], 50, 1000, []⟩ "BBB" (by norm_num) (by decide) (by decide)
      (by decide)).1.1 (by decide)).2

/-- Witness for the amended C7 theorem at the concrete bar: the CLOSE
preference executes at the close and the AVG preference at the
high/low/close mean. -/
theorem c7_execution_price_usage_witness :
    getExecutionPrice PriceType.CLOSE mdC7 "A" 0 = ptC7.close
    ∧ getExecutionPrice PriceType.AVG mdC7 "A" 0
        = (ptC7.high + ptC7.low + ptC7.close) / 3 :=
  ⟨(c7_execution_price_usage.2.1 PriceType.CLOSE mdC7 "A" 0 ptC7 (by decide)).2.2
      (Or.inl rfl),
   (c7_execution_price_usage.2.1 PriceType.AVG mdC7 "A" 0 ptC7 (by decide)).2.1 rfl⟩

/-- Witness for C8 at the concrete six-day run: the run completes and
every record's weights sum to 100. -/
theorem c8_weight_closure_witness :
    runSimCore ctxW = Except.ok (okOf (runSimCore ctxW))
    ∧ ∀ rec ∈ (okOf (runSimCore ctxW)).series, rec.riskOn + rec.riskOff = 100 :=
  ⟨by decide, c8_weight_closure ctxW (okOf (runSimCore ctxW)) (by decide)⟩

/-- Witness for C10 at the concrete six-day run: the emitted dates are
exactly the aligned window, in ascending order. -/
theorem c10_one_record_per_day_witness :
    (okOf (runSimCore ctxW)).series.map (fun rec => rec.date) = simDatesOf ctxW
    ∧ List.Sorted (· < ·) (simDatesOf ctxW) :=
  c10_one_record_per_day ctxW (okOf (runSimCore ctxW)) (by decide)

/-- Witness for the amended C5 theorem at concrete inputs: a fully-valid
window is averaged (days 1 and 2 before day 3 give (10+12)/2), and the
zero-close day 4 inside the window of day 5 forces null. -/
theorem c5_getMA_characterization_witness :
    getMA mdC5 sdC5 "P" 2 3
      = some (((maWindow sdC5 3 2).map (getSafePrice mdC5 "P")).sum / (2 : ℚ))
    ∧ getMA mdC5 sdC5 "P" 2 5 = none :=
  ⟨(c5_getMA_characterization mdC5 sdC5 "P" 2 3 3 (by decide)).1
      (by decide) (by decide),
   (c5_getMA_characterization mdC5 sdC5 "P" 2 5 5 (by decide)).2.2.1
      (by decide) (by decide)⟩

/-- Witness for C9: with a holding marked against an infinite close the
raw mark-to-market is non-finite and the recorded NAV is reset to the
initial capital; with no holdings the finite cash passes through. -/
theorem c9_nav_guard_witness :
    navGuardJ 10000 (rawNavJ mdJ9 0 (JsNum.fin 5) [("X", JsNum.fin 2)])
      = JsNum.fin 10000
    ∧ navGuardJ 10000 (rawNavJ mdJ9 0 (JsNum.fin 5) []) = rawNavJ mdJ9 0 (JsNum.fin 5) [] :=
  ⟨(c9_nav_guard 10000 mdJ9 0 (JsNum.fin 5) [("X", JsNum.fin 2)]).2.1 (by decide),
   (c9_nav_guard 10000 mdJ9 0 (JsNum.fin 5) []).2.2 (by decide)⟩

/-- Witness for C6 at Scenario A: AAA has data from day 0, BBB only from
day 5, the requested start is day 0; the feasible start is day 5, every
ticker has data there, and the first simulated date is day 5. -/
theorem c6_feasible_start_witness :
    (simDatesOf ctxA).head? = some 5 ∧ allHave ctxA 5 = true := by
  have h := c6_feasible_start ctxA 5 (by decide)
    (fun s hs => by
      have h0 : some (0 : ℕ) = some s := hs
      rw [← Option.some.inj h0]
      decide)
    (by decide)
  have h5 : (sortedDatesOf ctxA).getD 5 0 = 5 := by decide
  rw [h5] at h
  exact ⟨h.1, h.2.1⟩

end ConcreteEvaluation

end TrendPilot
